import Mathlib

/-!
aligned_vector: a growable container with an aligned data pointer.

A shallow embedding of `src/aligned_vector.hpp` (class `is::aligned_vector<T, A>`).

* `size_t` is a natural number below `SIZE_MOD`; its arithmetic wraps.
* Pointers are addresses (natural numbers), `0` is `NULL`.
* `new T[n]` is a fallible primitive: the address it returns is an input of
  every operation that may allocate (`resp : Option Nat`, `none` when the
  allocator throws `std::bad_alloc`).
* The memory reachable through `data_` is a list of slots; a slot that was
  never written since its allocation is `none` (indeterminate value).
* The parameter of `push_back` is a reference: to an object outside the
  buffer, or to an element of the buffer; a read through a reference into an
  array that `delete[]` has released yields an indeterminate value.
* An operation ends in an `Outcome`: it returns, it lets `std::bad_alloc`
  escape, an `assert` fires, or an access through `data_` leaves the aligned
  region.
-/

namespace is

/-! ## Machine arithmetic -/

/-- Number of values of `size_t` (64-bit unsigned). -/
def SIZE_MOD : Nat := 18446744073709551616

/-- Largest size in bytes of a single object (`PTRDIFF_MAX`). -/
def PTRDIFF_MAX : Nat := 9223372036854775807

/-- Addition `a + b` in `size_t`. -/
def size_add (a b : Nat) : Nat := (a + b) % SIZE_MOD

/-- Subtraction `a - b` in `size_t`, for `b` a value of `size_t`. -/
def size_sub (a b : Nat) : Nat := (a + SIZE_MOD - b) % SIZE_MOD

/-- Multiplication `a * b` in `size_t`. -/
def size_mul (a b : Nat) : Nat := (a * b) % SIZE_MOD

/-! ## Template parameters and the container state -/

/-- Compile-time parameters of an instance: the alignment `A` in bytes (second
template argument) and `sizeof(T)` of the element type. -/
structure Params where
  A : Nat
  sizeofT : Nat
deriving DecidableEq, Repr

/-- Instantiations the class is meant for: `sizeof(T)` is at least one byte,
`A` is a power of two (a precondition of `std::align`), and one alignment unit
of elements is far below the size of the address space. -/
def Params.Valid (p : Params) : Prop :=
  1 ≤ p.sizeofT ∧ (∃ e : Nat, p.A = 2 ^ e) ∧ p.A * p.sizeofT ≤ 9223372036854775808

/-- The four data members of `aligned_vector<T, A>`, followed by the part of
the heap they refer to: `raw_count` is the length of the array `raw_data_`
points to, `slots` the objects `data_[0]`, `data_[1]`, ... of the aligned
region (`none`: never written since the allocation). -/
structure aligned_vector (T : Type) where
  data_ : Nat
  raw_data_ : Nat
  size_ : Nat
  capacity_ : Nat
  raw_count : Nat
  slots : List (Option T)
deriving DecidableEq, Repr

/-- How a member function ends: it returns `v`; `std::bad_alloc` propagates to
the caller, the container being in state `s`; an `assert` fails; or an
element access through `data_`, or a block copy, leaves the aligned region. -/
inductive Outcome (T : Type) (σ : Type) where
  | ok (v : σ)
  | bad_alloc (s : aligned_vector T)
  | assert_fail
  | undefined
deriving DecidableEq, Repr

/-- Sequencing of two statements: the second runs only if the first returned. -/
def Outcome.bind {T σ τ : Type} (r : Outcome T σ) (f : σ → Outcome T τ) : Outcome T τ :=
  match r with
  | .ok v => f v
  | .bad_alloc s => .bad_alloc s
  | .assert_fail => .assert_fail
  | .undefined => .undefined

/-! ## Library primitives used by the class -/

/-- An array created by `new T[count]`: its address and its number of
elements. -/
structure Allocation where
  base : Nat
  count : Nat
deriving DecidableEq, Repr

/-- The primitive `new T[n]`: it throws (`none`) when the allocator does, and
otherwise creates an array of `n` elements at the non-null address `b`, a
block of `n * sizeof(T)` bytes, no larger than `PTRDIFF_MAX`, whose end is an
address. -/
def operator_new_array (p : Params) (n : Nat) (resp : Option Nat) : Option Allocation :=
  match resp with
  | none => none
  | some b =>
    if 0 < b ∧ n * p.sizeofT ≤ PTRDIFF_MAX ∧ b + n * p.sizeofT < SIZE_MOD then
      some { base := b, count := n }
    else none

/-- The primitive `std::align(alignment, size, ptr, space)`: the first address
at or after `ptr` that is a multiple of `alignment`, provided `size` bytes
starting there fit in the `space` bytes starting at `ptr`; `0` (null)
otherwise. -/
def std_align (alignment size ptr space : Nat) : Nat :=
  let aligned := (ptr + alignment - 1) / alignment * alignment
  if size ≤ space ∧ aligned - ptr ≤ space - size then aligned else 0

/-- The primitive `std::memmove(dst, src, bytes)` into a fresh region of
`dst_slots` elements: the whole elements covered by `bytes` are copied, the
rest of the destination stays indeterminate; `none` when `bytes` exceeds the
source or the destination region. -/
def memmove {T : Type} (p : Params) (src : List (Option T)) (dst_slots bytes : Nat) :
    Option (List (Option T)) :=
  if bytes ≤ src.length * p.sizeofT ∧ bytes ≤ dst_slots * p.sizeofT then
    some (src.take (bytes / p.sizeofT) ++ List.replicate (dst_slots - bytes / p.sizeofT) none)
  else none

/-! ## Member functions -/

/-- The constructor `aligned_vector()`. -/
def aligned_vector.init (T : Type) : aligned_vector T :=
  { data_ := 0, raw_data_ := 0, size_ := 0, capacity_ := 0, raw_count := 0, slots := [] }

/-- Member `size()`. -/
def size {T : Type} (s : aligned_vector T) : Nat := s.size_

/-- Member `empty()`. -/
def empty {T : Type} (s : aligned_vector T) : Bool := s.size_ == 0

/-- Member `data()`. -/
def data {T : Type} (s : aligned_vector T) : Nat := s.data_

/-- Member `capacity()`. -/
def capacity {T : Type} (s : aligned_vector T) : Nat := s.capacity_

/-- Member `at(pos)`: the assertion `pos < size_`, then the object `data_[pos]`. -/
def at_ {T : Type} (s : aligned_vector T) (pos : Nat) : Outcome T (Option T) :=
  if pos < s.size_ then
    match s.slots[pos]? with
    | some v => .ok v
    | none => .undefined
  else .assert_fail

/-- Member `operator[](pos)`: same body as `at`. -/
def operator_subscript {T : Type} (s : aligned_vector T) (pos : Nat) : Outcome T (Option T) :=
  if pos < s.size_ then
    match s.slots[pos]? with
    | some v => .ok v
    | none => .undefined
  else .assert_fail

/-- What a reference parameter `T& t` refers to when the call is made: an
object outside the buffer of the container, holding the value `v`, or the
element `data_[pos]` of the buffer of the container. -/
inductive Argument (T : Type) where
  | object (v : T)
  | element (pos : Nat)
deriving DecidableEq, Repr

/-- The content read through the reference `t` by an expression evaluated
after the call was made in state `s`: the value of an outside object; for an
element of the buffer, the content of its slot while that buffer is live, and
an indeterminate content once `delete[]` has released it (`released`), as
for a position outside the region. -/
def read_argument {T : Type} (s : aligned_vector T) (released : Bool) :
    Argument T → Option T
  | .object v => some v
  | .element pos =>
    if released then none
    else
      match s.slots[pos]? with
      | some v => v
      | none => none

/-- The assignment `data_[i] = t`, `v` being the content read through `t`. -/
def store {T : Type} (s : aligned_vector T) (i : Nat) (v : Option T) :
    Option (aligned_vector T) :=
  if i < s.slots.length then some { s with slots := s.slots.set i v } else none

/-- An assignment `v[pos] = t` through the reference `operator[]` returns. -/
def assign_at {T : Type} (s : aligned_vector T) (pos : Nat) (t : T) :
    Outcome T (aligned_vector T) :=
  if pos < s.size_ then
    match store s pos (some t) with
    | some s1 => .ok s1
    | none => .undefined
  else .assert_fail

/-- Private member `free_data_()`. -/
def free_data_ {T : Type} (s : aligned_vector T) : aligned_vector T :=
  if s.raw_data_ ≠ 0 then
    { data_ := 0, raw_data_ := 0, size_ := 0, capacity_ := 0, raw_count := 0, slots := [] }
  else s

/-- Member `clear()`. -/
def clear {T : Type} (s : aligned_vector T) : aligned_vector T := free_data_ s

/-- The expression `size + alignment_size - 1` of `alloc_aligned_`, in `size_t`. -/
def raw_length (size alignment_size : Nat) : Nat :=
  size_sub (size_add size alignment_size) 1

/-- Private member `alloc_aligned_(pt, size, alignment_size)`: `none` when
`new` throws, otherwise the pair of the array `*pt` points to and the
returned aligned pointer. -/
def alloc_aligned_ (p : Params) (resp : Option Nat) (size alignment_size : Nat) :
    Option (Allocation × Nat) :=
  match operator_new_array p (raw_length size alignment_size) resp with
  | none => none
  | some pt =>
    let storage_size := size_mul (raw_length size alignment_size) p.sizeofT
    some (pt, std_align alignment_size (size_mul size p.sizeofT) pt.base storage_size)

/-- Member `reserve(capacity)`. The block copy runs before the old array is
released by `delete[]`; a copy of zero bytes reads nothing, also from a null
`data_`. The state returned describes the new array only: `raw_data_` is its
address and `raw_count` the number of elements `new` created it with. -/
def reserve {T : Type} (p : Params) (resp : Option Nat) (s : aligned_vector T)
    (capacity : Nat) : Outcome T (aligned_vector T) :=
  match alloc_aligned_ p resp capacity p.A with
  | none => .bad_alloc s
  | some (new_raw_data, new_aligned_data) =>
    if new_raw_data.base = 0 then .assert_fail
    else if new_aligned_data = 0 then .assert_fail
    else
      let min_size := if s.size_ < capacity then s.size_ else capacity
      match memmove p s.slots (size_mul capacity p.sizeofT / p.sizeofT)
          (size_mul p.sizeofT min_size) with
      | none => .undefined
      | some new_slots =>
        .ok { data_ := new_aligned_data, raw_data_ := new_raw_data.base, size_ := min_size,
              capacity_ := capacity, raw_count := new_raw_data.count,
              slots := new_slots }

/-- Member `push_back(T& t)`. The reference `t` is read in the statement
`data_[size_] = t`, after the `if`: when `reserve` was called, the buffer of
state `s` has been released by then. -/
def push_back {T : Type} (p : Params) (resp : Option Nat) (s : aligned_vector T)
    (t : Argument T) : Outcome T (aligned_vector T) :=
  (if s.size_ ≥ s.capacity_ then
      reserve p resp s (if s.capacity_ = 0 then 1 else size_mul s.capacity_ 2)
    else .ok s).bind fun s1 =>
  match store s1 s1.size_ (read_argument s (decide (s.size_ ≥ s.capacity_)) t) with
  | none => .undefined
  | some s2 => .ok { s2 with size_ := size_add s2.size_ 1 }

/-- Member `push_back(const T& t)`. -/
def push_back_const {T : Type} (p : Params) (resp : Option Nat) (s : aligned_vector T)
    (t : Argument T) : Outcome T (aligned_vector T) :=
  (if s.size_ ≥ s.capacity_ then
      reserve p resp s (if s.capacity_ = 0 then 1 else size_mul s.capacity_ 2)
    else .ok s).bind fun s1 =>
  match store s1 s1.size_ (read_argument s (decide (s.size_ ≥ s.capacity_)) t) with
  | none => .undefined
  | some s2 => .ok { s2 with size_ := size_add s2.size_ 1 }

/-- Member `emplace_back(T& t)`. -/
def emplace_back {T : Type} (p : Params) (resp : Option Nat) (s : aligned_vector T)
    (t : Argument T) : Outcome T (aligned_vector T) :=
  push_back p resp s t

/-- Member `resize(size)`. -/
def resize {T : Type} (p : Params) (resp : Option Nat) (s : aligned_vector T)
    (size : Nat) : Outcome T (aligned_vector T) :=
  (reserve p resp s size).bind fun s1 => .ok { s1 with size_ := size }

/-! ## Sequences of public operations -/

/-- The state-changing public operations; `assign_at` is a write through the
reference returned by `at` or `operator[]`. -/
inductive Op (T : Type) where
  | push_back (t : Argument T)
  | push_back_const (t : Argument T)
  | emplace_back (t : Argument T)
  | resize (size : Nat)
  | reserve (capacity : Nat)
  | clear
  | assign_at (pos : Nat) (t : T)
deriving DecidableEq, Repr

/-- The arguments of type `size_t` are values of `size_t`. -/
def Op.wf {T : Type} : Op T → Prop
  | .resize size => size < SIZE_MOD
  | .reserve capacity => capacity < SIZE_MOD
  | .assign_at pos _ => pos < SIZE_MOD
  | _ => True

/-- One public operation, given the answer `resp` of the allocator to the
request the operation makes, if it makes one. -/
def step {T : Type} (p : Params) (resp : Option Nat) (s : aligned_vector T) :
    Op T → Outcome T (aligned_vector T)
  | .push_back t => push_back p resp s t
  | .push_back_const t => push_back_const p resp s t
  | .emplace_back t => emplace_back p resp s t
  | .resize size => resize p resp s size
  | .reserve capacity => reserve p resp s capacity
  | .clear => .ok (clear s)
  | .assign_at pos t => assign_at s pos t

/-- States a container can be in: after construction, and after any public
operation on a reachable state has returned or has let `std::bad_alloc`
escape. -/
inductive Reachable {T : Type} (p : Params) : aligned_vector T → Prop where
  | init : Reachable p (aligned_vector.init T)
  | ret (s s1 : aligned_vector T) (op : Op T) (resp : Option Nat) :
      Reachable p s → op.wf → step p resp s op = .ok s1 → Reachable p s1
  | threw (s s1 : aligned_vector T) (op : Op T) (resp : Option Nat) :
      Reachable p s → op.wf → step p resp s op = .bad_alloc s1 → Reachable p s1

/-- A run of `push_back` calls from state `s`, one allocator answer and one
argument per call; it stops at the first call that does not return. -/
def push_backs {T : Type} (p : Params) : List (Option Nat × Argument T) → aligned_vector T →
    Outcome T (aligned_vector T)
  | [], s => .ok s
  | (resp, t) :: rest, s => (push_back p resp s t).bind (push_backs p rest)

/-! ## The representation invariant -/

/-- What every reachable state satisfies: the size is within the capacity,
the aligned region has one slot per unit of capacity, and the pointers are
either both null with nothing allocated, or `data_` is `raw_data_` rounded up
to a multiple of `A` inside an array of `capacity_ + A - 1` elements. -/
def Inv {T : Type} (p : Params) (s : aligned_vector T) : Prop :=
  s.size_ ≤ s.capacity_ ∧ s.slots.length = s.capacity_ ∧
  s.capacity_ * p.sizeofT ≤ PTRDIFF_MAX ∧
  (s.raw_data_ = 0 → s.data_ = 0 ∧ s.capacity_ = 0 ∧ s.raw_count = 0) ∧
  (s.raw_data_ ≠ 0 → s.data_ ≠ 0 ∧ s.raw_count = s.capacity_ + p.A - 1 ∧
    s.raw_count * p.sizeofT ≤ PTRDIFF_MAX ∧
    s.raw_data_ + s.raw_count * p.sizeofT < SIZE_MOD ∧
    s.data_ = (s.raw_data_ + p.A - 1) / p.A * p.A ∧
    s.data_ + s.capacity_ * p.sizeofT ≤ s.raw_data_ + s.raw_count * p.sizeofT)

/-- The state `reserve(k)` returns when `new` answered `b`. -/
def reserved {T : Type} (p : Params) (b : Nat) (s : aligned_vector T) (k : Nat) :
    aligned_vector T :=
  { data_ := (b + p.A - 1) / p.A * p.A, raw_data_ := b, size_ := min s.size_ k,
    capacity_ := k, raw_count := k + p.A - 1,
    slots := s.slots.take (min s.size_ k) ++ List.replicate (k - min s.size_ k) none }

/-- The argument `push_back` passes to `reserve` when the container is full. -/
def growth_target {T : Type} (s : aligned_vector T) : Nat :=
  if s.capacity_ = 0 then 1 else size_mul s.capacity_ 2

/-- The state after the statements `data_[size_] = t; size_ += 1;` when the
slot exists and the size does not wrap, `v` being the content read through
`t`. -/
def pushed {T : Type} (s : aligned_vector T) (v : Option T) : aligned_vector T :=
  { s with slots := s.slots.set s.size_ v, size_ := s.size_ + 1 }

/-- The logical contents: the objects at the indices `0 .. size_ - 1`. -/
def contents {T : Type} (s : aligned_vector T) : List (Option T) :=
  s.slots.take s.size_

/-- Capacities the doubling policy leaves behind: `0` while nothing was
pushed, afterwards a power of two below twice the size. -/
def Doubled {T : Type} (s : aligned_vector T) : Prop :=
  (s.size_ = 0 ∧ s.capacity_ = 0) ∨ ∃ e : Nat, s.capacity_ = 2 ^ e ∧ s.capacity_ < 2 * s.size_

/-- A run of `push_back` calls from `s` is stopped in state `s1` by the
allocator: the calls before some call `c` returned and left the container
full in state `s1`, and the allocator refused the array that the `reserve`
of `c` asked for. -/
def refused_at {T : Type} (p : Params) (calls : List (Option Nat × Argument T))
    (s s1 : aligned_vector T) : Prop :=
  ∃ (before : List (Option Nat × Argument T)) (c : Option Nat × Argument T)
    (rest : List (Option Nat × Argument T)),
    calls = before ++ c :: rest ∧ push_backs p before s = .ok s1 ∧
    s1.capacity_ ≤ s1.size_ ∧
    operator_new_array p (raw_length (growth_target s1) p.A) c.1 = none

/-- The value held by an argument that is an object outside the buffer. -/
def object_value {T : Type} : Argument T → Option T
  | .object v => some v
  | .element _ => none

/-- Scenario instance: `Alignment = 16` and a 4-byte integer element. -/
def params16 : Params := { A := 16, sizeofT := 4 }

/-- Five `push_back` calls with the values `0 .. 4`, held by objects outside
the container; the allocator answers each request with some address, aligned
or not. -/
def five_pushes : List (Option Nat × Argument Nat) :=
  [(some 1000, .object 0), (some 2000, .object 1), (some 3004, .object 2),
    (some 5555, .object 3), (some 4001, .object 4)]

/-- Two `push_back` calls: the value 7 held by an outside object, then the
element `v[0]` of the container itself, which is full at that moment. -/
def alias_pushes : List (Option Nat × Argument Nat) :=
  [(some 1000, .object 7), (some 2000, .element 0)]

/-- The state after `push_back(x)` with `x = 7` on a new container: full,
with capacity 1. -/
def after_one_push : aligned_vector Nat :=
  { data_ := 1008, raw_data_ := 1000, size_ := 1, capacity_ := 1, raw_count := 16,
    slots := [some 7] }

/-- The state after the two pushes of `alias_pushes`. -/
def after_alias_pushes : aligned_vector Nat :=
  { data_ := 2000, raw_data_ := 2000, size_ := 2, capacity_ := 2, raw_count := 17,
    slots := [some 7, none] }

/-- The state after `reserve(3)` on a new container, the allocator having
answered with address 1000. -/
def after_reserve3 : aligned_vector Nat :=
  { data_ := 1008, raw_data_ := 1000, size_ := 0, capacity_ := 3, raw_count := 18,
    slots := [none, none, none] }

/-- The state after the five pushes of `five_pushes`. -/
def after_five_pushes : aligned_vector Nat :=
  { data_ := 4016, raw_data_ := 4001, size_ := 5, capacity_ := 8, raw_count := 23,
    slots := [some 0, some 1, some 2, some 3, some 4, none, none, none] }

/-- A full container: the state after `push_back(0)`, `push_back(1)`. -/
def after_two_pushes : aligned_vector Nat :=
  { data_ := 2000, raw_data_ := 2000, size_ := 2, capacity_ := 2, raw_count := 17,
    slots := [some 0, some 1] }

/-- The state after `reserve(0)` on a new container, the allocator having
answered with address 1000. -/
def after_reserve0 : aligned_vector Nat :=
  { data_ := 1008, raw_data_ := 1000, size_ := 0, capacity_ := 0, raw_count := 15,
    slots := [] }

/-- The first statement of `push_back`: `if (size_ >= capacity_) reserve(...)`. -/
def grow_if_full {T : Type} (p : Params) (resp : Option Nat) (s : aligned_vector T) :
    Outcome T (aligned_vector T) :=
  if s.size_ ≥ s.capacity_ then
    reserve p resp s (if s.capacity_ = 0 then 1 else size_mul s.capacity_ 2)
  else .ok s

/-- The last two statements of `push_back`: `data_[size_] = t; size_ += 1;`,
`v` being the content read through `t`. -/
def write_back {T : Type} (s1 : aligned_vector T) (v : Option T) :
    Outcome T (aligned_vector T) :=
  match store s1 s1.size_ v with
  | none => .undefined
  | some s2 => .ok { s2 with size_ := size_add s2.size_ 1 }

/-- Instrumented `push_back`: the outcome together with the arguments of the
calls of `reserve` it made, in order. -/
def push_back_traced {T : Type} (p : Params) (resp : Option Nat) (s : aligned_vector T)
    (t : Argument T) : Outcome T (aligned_vector T) × List Nat :=
  if s.size_ ≥ s.capacity_ then
    ((reserve p resp s (if s.capacity_ = 0 then 1 else size_mul s.capacity_ 2)).bind
        (fun s1 => write_back s1 (read_argument s true t)),
      [if s.capacity_ = 0 then 1 else size_mul s.capacity_ 2])
  else ((Outcome.ok s).bind (fun s1 => write_back s1 (read_argument s false t)), [])

/-- The length of the raw array as the specification words it:
`capacity + ceil(Alignment / sizeof(T)) - 1` elements. -/
def claimed_raw_count (p : Params) (capacity : Nat) : Nat :=
  capacity + (p.A + p.sizeofT - 1) / p.sizeofT - 1

/-- The largest value of `size_t`. -/
def SIZE_MAX : Nat := 18446744073709551615

/-! ## Arithmetic of the allocation -/

theorem valid_pos (p : Params) (hp : p.Valid) : 1 ≤ p.sizeofT ∧ 1 ≤ p.A := by
  obtain ⟨h1, ⟨e, he⟩, _⟩ := hp
  exact ⟨h1, by rw [he]; exact Nat.one_le_two_pow⟩

theorem round_up_props (b A : Nat) (hA : 0 < A) :
    b ≤ (b + A - 1) / A * A ∧ (b + A - 1) / A * A ≤ b + A - 1 ∧
    ((b + A - 1) / A * A) % A = 0 ∧
    ∀ a, b ≤ a → a % A = 0 → (b + A - 1) / A * A ≤ a := by
  have h1 := Nat.div_add_mod (b + A - 1) A
  have h2 := Nat.mod_lt (b + A - 1) hA
  have h3 : (b + A - 1) / A * A = A * ((b + A - 1) / A) := Nat.mul_comm _ _
  refine ⟨by omega, by omega, by simp, ?_⟩
  intro a hba ha
  obtain ⟨c, hc⟩ := Nat.dvd_of_mod_eq_zero ha
  have h4 : (b + A - 1) / A < c + 1 := by
    rw [Nat.div_lt_iff_lt_mul hA]
    have : (c + 1) * A = A * c + A := by ring
    omega
  have h5 : (b + A - 1) / A * A ≤ c * A := Nat.mul_le_mul_right A (by omega)
  rw [hc, Nat.mul_comm A c]
  exact h5

theorem raw_length_eq (k A : Nat) (hA : 1 ≤ A) (h : k + A - 1 < SIZE_MOD) :
    raw_length k A = k + A - 1 := by
  unfold raw_length size_sub size_add
  unfold SIZE_MOD at *
  omega

theorem new_array_some (p : Params) (n : Nat) (resp : Option Nat) (b c : Nat)
    (h : operator_new_array p n resp = some { base := b, count := c }) :
    c = n ∧ 0 < b ∧ n * p.sizeofT ≤ PTRDIFF_MAX ∧ b + n * p.sizeofT < SIZE_MOD := by
  unfold operator_new_array at h
  cases resp with
  | none => simp at h
  | some d =>
    simp only at h
    split at h
    · rename_i hc
      cases h
      exact ⟨rfl, hc.1, hc.2.1, hc.2.2⟩
    · simp at h

theorem min_size_eq (a k : Nat) : (if a < k then a else k) = min a k := by
  split <;> omega

theorem align_wrap (p : Params) (hp : p.Valid) (k b : Nat) (hk : k < SIZE_MOD)
    (hw : SIZE_MOD ≤ k + p.A - 1)
    (hn : raw_length k p.A * p.sizeofT ≤ PTRDIFF_MAX) :
    std_align p.A (size_mul k p.sizeofT) b (size_mul (raw_length k p.A) p.sizeofT) = 0 := by
  obtain ⟨hs, hA⟩ := valid_pos p hp
  have hAs := hp.2.2
  have hAle : p.A ≤ p.A * p.sizeofT := Nat.le_mul_of_pos_right _ hs
  unfold SIZE_MOD at hk hw
  have hrl : raw_length k p.A = k + p.A - 1 - 18446744073709551616 := by
    unfold raw_length size_sub size_add SIZE_MOD
    omega
  rw [hrl] at hn ⊢
  have hj : (18446744073709551616 - k) * p.sizeofT ≤ p.A * p.sizeofT :=
    Nat.mul_le_mul_right _ (by omega)
  have hj1 : 1 ≤ (18446744073709551616 - k) * p.sizeofT := Nat.mul_pos (by omega) hs
  have hks : k * p.sizeofT + (18446744073709551616 - k) * p.sizeofT
      = 18446744073709551616 * p.sizeofT := by
    have hkj : k + (18446744073709551616 - k) = 18446744073709551616 := by omega
    rw [← Nat.add_mul, hkj]
  have hlt : size_mul (k + p.A - 1 - 18446744073709551616) p.sizeofT
      < size_mul k p.sizeofT := by
    unfold size_mul SIZE_MOD
    unfold PTRDIFF_MAX at hn
    omega
  unfold std_align
  simp only
  rw [if_neg]
  omega

theorem align_fit (p : Params) (k b : Nat) (hs : 1 ≤ p.sizeofT) (hA : 1 ≤ p.A)
    (hb : (k + p.A - 1) * p.sizeofT ≤ PTRDIFF_MAX) :
    std_align p.A (size_mul k p.sizeofT) b (size_mul (k + p.A - 1) p.sizeofT)
      = (b + p.A - 1) / p.A * p.A := by
  have h1 : (k + p.A - 1) * p.sizeofT = k * p.sizeofT + (p.A - 1) * p.sizeofT := by
    have hkA : k + p.A - 1 = k + (p.A - 1) := by omega
    rw [← Nat.add_mul, hkA]
  have h2 : p.A - 1 ≤ (p.A - 1) * p.sizeofT := Nat.le_mul_of_pos_right _ hs
  obtain ⟨h3, h4, _, _⟩ := round_up_props b p.A hA
  unfold PTRDIFF_MAX at hb
  have h5 : size_mul k p.sizeofT = k * p.sizeofT := by
    unfold size_mul SIZE_MOD
    omega
  have h6 : size_mul (k + p.A - 1) p.sizeofT = (k + p.A - 1) * p.sizeofT := by
    unfold size_mul SIZE_MOD
    omega
  rw [h5, h6]
  unfold std_align
  simp only
  rw [if_pos]
  omega

theorem memmove_copy {T : Type} (p : Params) (src : List (Option T)) (k m : Nat)
    (hs : 1 ≤ p.sizeofT) (hk : k * p.sizeofT ≤ PTRDIFF_MAX) (hmk : m ≤ k)
    (hm : m ≤ src.length) :
    memmove p src (size_mul k p.sizeofT / p.sizeofT) (size_mul p.sizeofT m)
      = some (src.take m ++ List.replicate (k - m) none) := by
  have h0 : m * p.sizeofT ≤ k * p.sizeofT := Nat.mul_le_mul_right _ hmk
  have h1 : m * p.sizeofT ≤ src.length * p.sizeofT := Nat.mul_le_mul_right _ hm
  unfold PTRDIFF_MAX at hk
  have h5 : size_mul k p.sizeofT = k * p.sizeofT := by
    unfold size_mul SIZE_MOD
    omega
  have h6 : size_mul p.sizeofT m = m * p.sizeofT := by
    unfold size_mul SIZE_MOD
    rw [Nat.mul_comm p.sizeofT m]
    omega
  rw [h5, h6, Nat.mul_div_cancel _ hs]
  unfold memmove
  rw [Nat.mul_div_cancel _ hs, if_pos ⟨h1, h0⟩]

theorem reserve_cases {T : Type} (p : Params) (hp : p.Valid) (resp : Option Nat)
    (s : aligned_vector T) (hs : s.size_ ≤ s.slots.length) (k : Nat) (hk : k < SIZE_MOD) :
    (operator_new_array p (raw_length k p.A) resp = none ∧ reserve p resp s k = .bad_alloc s) ∨
    (SIZE_MOD ≤ k + p.A - 1 ∧ reserve p resp s k = .assert_fail) ∨
    (∃ b, operator_new_array p (k + p.A - 1) resp
        = some { base := b, count := k + p.A - 1 } ∧ 0 < b ∧
      k + p.A - 1 < SIZE_MOD ∧ (k + p.A - 1) * p.sizeofT ≤ PTRDIFF_MAX ∧
      b + (k + p.A - 1) * p.sizeofT < SIZE_MOD ∧
      reserve p resp s k = .ok (reserved p b s k)) := by
  obtain ⟨hs1, hA⟩ := valid_pos p hp
  cases h : operator_new_array p (raw_length k p.A) resp with
  | none =>
    left
    refine ⟨rfl, ?_⟩
    unfold reserve alloc_aligned_
    rw [h]
  | some a =>
    right
    obtain ⟨b, c⟩ := a
    obtain ⟨hc, hb0, hbn, hbe⟩ := new_array_some p _ resp b c h
    rw [hc] at h
    by_cases hw : SIZE_MOD ≤ k + p.A - 1
    · left
      refine ⟨hw, ?_⟩
      unfold reserve alloc_aligned_
      rw [h]
      simp only
      rw [align_wrap p hp k b hk hw hbn, if_neg (by omega)]
      simp
    · right
      have hnw : k + p.A - 1 < SIZE_MOD := by omega
      have hrl := raw_length_eq k p.A hA hnw
      rw [hrl] at h hbn hbe
      refine ⟨b, h, hb0, hnw, hbn, hbe, ?_⟩
      have hkk : k * p.sizeofT ≤ (k + p.A - 1) * p.sizeofT :=
        Nat.mul_le_mul_right _ (by omega)
      obtain ⟨h3, _, _, _⟩ := round_up_props b p.A hA
      unfold reserve alloc_aligned_
      rw [hrl, h]
      simp only
      rw [align_fit p k b hs1 hA hbn, if_neg (by omega), if_neg (by omega), min_size_eq,
        memmove_copy p s.slots k (min s.size_ k) hs1 (by omega) (by omega) (by omega)]
      rfl

/-! ## The invariant is kept by every operation -/

theorem inv_init {T : Type} (p : Params) : Inv p (aligned_vector.init T) := by
  unfold Inv aligned_vector.init PTRDIFF_MAX
  simp

theorem inv_reserved {T : Type} (p : Params) (hp : p.Valid) (s : aligned_vector T)
    (hs : s.size_ ≤ s.slots.length) (k b : Nat) (hb : 0 < b)
    (hn : (k + p.A - 1) * p.sizeofT ≤ PTRDIFF_MAX)
    (he : b + (k + p.A - 1) * p.sizeofT < SIZE_MOD) : Inv p (reserved p b s k) := by
  obtain ⟨hs1, hA⟩ := valid_pos p hp
  have h1 : (k + p.A - 1) * p.sizeofT = k * p.sizeofT + (p.A - 1) * p.sizeofT := by
    have hkA : k + p.A - 1 = k + (p.A - 1) := by omega
    rw [← Nat.add_mul, hkA]
  have h2 : p.A - 1 ≤ (p.A - 1) * p.sizeofT := Nat.le_mul_of_pos_right _ hs1
  obtain ⟨h3, h4, _, _⟩ := round_up_props b p.A hA
  unfold Inv reserved
  simp only [List.length_append, List.length_take, List.length_replicate]
  refine ⟨by omega, by omega, by omega, by omega, ?_⟩
  intro _
  exact ⟨by omega, trivial, hn, he, trivial, by omega⟩

theorem inv_free_data {T : Type} (p : Params) (s : aligned_vector T) (hs : Inv p s) :
    Inv p (free_data_ s) := by
  unfold free_data_
  split
  · exact inv_init p
  · exact hs

theorem growth_target_eq {T : Type} (p : Params) (hp : p.Valid) (s : aligned_vector T)
    (hs : Inv p s) :
    growth_target s = (if s.capacity_ = 0 then 1 else s.capacity_ * 2) ∧
    growth_target s < SIZE_MOD ∧ growth_target s + p.A - 1 < SIZE_MOD := by
  obtain ⟨hs1, hA⟩ := valid_pos p hp
  have hAs := hp.2.2
  obtain ⟨_, _, hc, h0, h1⟩ := hs
  have hAle : p.A ≤ p.A * p.sizeofT := Nat.le_mul_of_pos_right _ hs1
  have hcle : s.capacity_ ≤ s.capacity_ * p.sizeofT := Nat.le_mul_of_pos_right _ hs1
  unfold growth_target size_mul SIZE_MOD
  unfold PTRDIFF_MAX at hc h1
  by_cases hcap : s.capacity_ = 0
  · simp only [if_pos hcap]
    refine ⟨trivial, by omega, by omega⟩
  · simp only [if_neg hcap]
    have hr : s.raw_data_ ≠ 0 := fun h => hcap (h0 h).2.1
    obtain ⟨_, h2, h3, _⟩ := h1 hr
    have hrle : s.raw_count ≤ s.raw_count * p.sizeofT := Nat.le_mul_of_pos_right _ hs1
    refine ⟨by omega, by omega, by omega⟩

theorem store_in_range {T : Type} (s : aligned_vector T) (i : Nat) (v : Option T)
    (h : i < s.slots.length) :
    store s i v = some { s with slots := s.slots.set i v } := by
  unfold store
  rw [if_pos h]

theorem push_back_cases {T : Type} (p : Params) (hp : p.Valid) (resp : Option Nat)
    (s : aligned_vector T) (hs : Inv p s) (t : Argument T) :
    (s.capacity_ ≤ s.size_ ∧
      operator_new_array p (raw_length (growth_target s) p.A) resp = none ∧
      push_back p resp s t = .bad_alloc s) ∨
    (s.size_ < s.capacity_ ∧
      push_back p resp s t = .ok (pushed s (read_argument s false t))) ∨
    (s.capacity_ ≤ s.size_ ∧ ∃ b,
      operator_new_array p (growth_target s + p.A - 1) resp
        = some { base := b, count := growth_target s + p.A - 1 } ∧ 0 < b ∧
      (growth_target s + p.A - 1) * p.sizeofT ≤ PTRDIFF_MAX ∧
      b + (growth_target s + p.A - 1) * p.sizeofT < SIZE_MOD ∧
      push_back p resp s t
        = .ok (pushed (reserved p b s (growth_target s)) (read_argument s true t))) := by
  obtain ⟨hg, hgk, hgw⟩ := growth_target_eq p hp s hs
  obtain ⟨hsz, hlen, hc, _, _⟩ := hs
  have hcs : s.capacity_ ≤ s.capacity_ * p.sizeofT :=
    Nat.le_mul_of_pos_right _ (valid_pos p hp).1
  have hsm : s.size_ + 1 < SIZE_MOD := by
    unfold PTRDIFF_MAX at hc
    unfold SIZE_MOD
    omega
  by_cases hfull : s.capacity_ ≤ s.size_
  · have hpb : push_back p resp s t = (reserve p resp s (growth_target s)).bind fun s1 =>
        match store s1 s1.size_ (read_argument s true t) with
        | none => .undefined
        | some s2 => .ok { s2 with size_ := size_add s2.size_ 1 } := by
      unfold push_back growth_target
      rw [if_pos hfull, decide_eq_true hfull]
    rcases reserve_cases p hp resp s (by omega) (growth_target s) hgk with
      ⟨hna, hr⟩ | ⟨hw, _⟩ | ⟨b, hna, hb0, _, hbn, hbe, hr⟩
    · left
      refine ⟨hfull, hna, ?_⟩
      rw [hpb, hr]
      rfl
    · omega
    · right; right
      refine ⟨hfull, b, hna, hb0, hbn, hbe, ?_⟩
      have hmin : min s.size_ (growth_target s) = s.size_ := by
        rw [hg]
        split <;> omega
      have hrs : (reserved p b s (growth_target s)).size_ = s.size_ := hmin
      have hrl : (reserved p b s (growth_target s)).slots.length = growth_target s := by
        unfold reserved
        simp only [List.length_append, List.length_take, List.length_replicate]
        omega
      have hlt : s.size_ < growth_target s := by
        rw [hg]
        split <;> omega
      rw [hpb, hr]
      simp only [Outcome.bind]
      rw [store_in_range _ _ _ (by rw [hrs, hrl]; exact hlt)]
      simp only [pushed, hrs, size_add, Nat.mod_eq_of_lt hsm]
  · right; left
    refine ⟨by omega, ?_⟩
    unfold push_back
    rw [if_neg hfull, decide_eq_false hfull]
    simp only [Outcome.bind]
    rw [store_in_range _ _ _ (by omega)]
    simp only [pushed, size_add, Nat.mod_eq_of_lt hsm]

theorem inv_pushed {T : Type} (p : Params) (s : aligned_vector T) (hs : Inv p s)
    (hlt : s.size_ < s.capacity_) (t : Option T) : Inv p (pushed s t) := by
  obtain ⟨_, hlen, hc, h0, h1⟩ := hs
  unfold Inv pushed
  simp only [List.length_set]
  exact ⟨hlt, hlen, hc, h0, h1⟩

theorem reserved_size_lt {T : Type} (p : Params) (hp : p.Valid) (s : aligned_vector T)
    (hs : Inv p s) (hfull : s.capacity_ ≤ s.size_) (b : Nat) :
    (reserved p b s (growth_target s)).size_ = s.size_ ∧
    (reserved p b s (growth_target s)).size_ < (reserved p b s (growth_target s)).capacity_ := by
  obtain ⟨hg, _, _⟩ := growth_target_eq p hp s hs
  have hsz := hs.1
  have hlt : s.size_ < growth_target s := by
    rw [hg]
    split <;> omega
  have hmin : min s.size_ (growth_target s) = s.size_ := by omega
  exact ⟨hmin, by show min s.size_ (growth_target s) < growth_target s; omega⟩

theorem push_back_const_eq {T : Type} (p : Params) (resp : Option Nat)
    (s : aligned_vector T) (t : Argument T) :
    push_back_const p resp s t = push_back p resp s t := rfl

theorem push_back_inv {T : Type} (p : Params) (hp : p.Valid) (resp : Option Nat)
    (s : aligned_vector T) (hs : Inv p s) (t : Argument T) :
    (∀ s1, push_back p resp s t = .ok s1 → Inv p s1) ∧
    (∀ s1, push_back p resp s t = .bad_alloc s1 → s1 = s) := by
  rcases push_back_cases p hp resp s hs t with
    ⟨_, _, h⟩ | ⟨hlt, h⟩ | ⟨hfull, b, _, hb0, hbn, hbe, h⟩
  · rw [h]
    exact ⟨fun s1 h1 => (by cases h1), fun s1 h1 => (by cases h1; rfl)⟩
  · rw [h]
    refine ⟨fun s1 h1 => ?_, fun s1 h1 => by cases h1⟩
    cases h1
    exact inv_pushed p s hs hlt _
  · rw [h]
    refine ⟨fun s1 h1 => ?_, fun s1 h1 => by cases h1⟩
    cases h1
    have hlen : s.size_ ≤ s.slots.length := by rw [hs.2.1]; exact hs.1
    exact inv_pushed p _ (inv_reserved p hp s hlen _ b hb0 hbn hbe)
      (reserved_size_lt p hp s hs hfull b).2 _

theorem reserve_inv {T : Type} (p : Params) (hp : p.Valid) (resp : Option Nat)
    (s : aligned_vector T) (hs : Inv p s) (k : Nat) (hk : k < SIZE_MOD) :
    (∀ s1, reserve p resp s k = .ok s1 → Inv p s1) ∧
    (∀ s1, reserve p resp s k = .bad_alloc s1 → s1 = s) := by
  have hlen : s.size_ ≤ s.slots.length := by rw [hs.2.1]; exact hs.1
  rcases reserve_cases p hp resp s hlen k hk with
    ⟨_, h⟩ | ⟨_, h⟩ | ⟨b, _, hb0, _, hbn, hbe, h⟩
  · rw [h]
    exact ⟨fun s1 h1 => (by cases h1), fun s1 h1 => (by cases h1; rfl)⟩
  · rw [h]
    exact ⟨fun s1 h1 => (by cases h1), fun s1 h1 => (by cases h1)⟩
  · rw [h]
    refine ⟨fun s1 h1 => ?_, fun s1 h1 => by cases h1⟩
    cases h1
    exact inv_reserved p hp s hlen k b hb0 hbn hbe

theorem resize_inv {T : Type} (p : Params) (hp : p.Valid) (resp : Option Nat)
    (s : aligned_vector T) (hs : Inv p s) (k : Nat) (hk : k < SIZE_MOD) :
    (∀ s1, resize p resp s k = .ok s1 → Inv p s1) ∧
    (∀ s1, resize p resp s k = .bad_alloc s1 → s1 = s) := by
  have hlen : s.size_ ≤ s.slots.length := by rw [hs.2.1]; exact hs.1
  unfold resize
  rcases reserve_cases p hp resp s hlen k hk with
    ⟨_, h⟩ | ⟨_, h⟩ | ⟨b, _, hb0, _, hbn, hbe, h⟩
  · rw [h]
    exact ⟨fun s1 h1 => (by cases h1), fun s1 h1 => (by cases h1; rfl)⟩
  · rw [h]
    exact ⟨fun s1 h1 => (by cases h1), fun s1 h1 => (by cases h1)⟩
  · rw [h]
    refine ⟨fun s1 h1 => ?_, fun s1 h1 => by cases h1⟩
    cases h1
    obtain ⟨_, h2, h3, h4, h5⟩ := inv_reserved p hp s hlen k b hb0 hbn hbe
    exact ⟨Nat.le_refl _, h2, h3, h4, h5⟩

theorem assign_at_inv {T : Type} (p : Params) (s : aligned_vector T) (hs : Inv p s)
    (pos : Nat) (t : T) :
    (∀ s1, assign_at s pos t = .ok s1 → Inv p s1) ∧
    (∀ s1, assign_at s pos t = .bad_alloc s1 → s1 = s) := by
  unfold assign_at store
  by_cases h1 : pos < s.size_
  · by_cases h2 : pos < s.slots.length
    · rw [if_pos h1, if_pos h2]
      refine ⟨fun s1 h => ?_, fun s1 h => by cases h⟩
      cases h
      obtain ⟨ha, hlen, hc, h0, h3⟩ := hs
      unfold Inv
      simp only [List.length_set]
      exact ⟨ha, hlen, hc, h0, h3⟩
    · rw [if_pos h1, if_neg h2]
      exact ⟨fun s1 h => (by cases h), fun s1 h => (by cases h)⟩
  · rw [if_neg h1]
    exact ⟨fun s1 h => (by cases h), fun s1 h => (by cases h)⟩

theorem step_inv {T : Type} (p : Params) (hp : p.Valid) (resp : Option Nat)
    (s : aligned_vector T) (hs : Inv p s) (op : Op T) (hw : op.wf) :
    (∀ s1, step p resp s op = .ok s1 → Inv p s1) ∧
    (∀ s1, step p resp s op = .bad_alloc s1 → s1 = s) := by
  cases op with
  | push_back t => exact push_back_inv p hp resp s hs t
  | push_back_const t => exact push_back_inv p hp resp s hs t
  | emplace_back t => exact push_back_inv p hp resp s hs t
  | resize k => exact resize_inv p hp resp s hs k hw
  | reserve k => exact reserve_inv p hp resp s hs k hw
  | clear =>
    refine ⟨fun s1 h => ?_, fun s1 h => by cases h⟩
    cases h
    exact inv_free_data p s hs
  | assign_at pos t => exact assign_at_inv p s hs pos t

theorem reachable_inv {T : Type} (p : Params) (hp : p.Valid) (s : aligned_vector T)
    (h : Reachable p s) : Inv p s := by
  induction h with
  | init => exact inv_init p
  | ret s s1 op resp _ hw hstep ih => exact (step_inv p hp resp s ih op hw).1 s1 hstep
  | threw s s1 op resp _ hw hstep ih =>
    rw [(step_inv p hp resp s ih op hw).2 s1 hstep]
    exact ih

/-! ## Runs of `push_back` -/

theorem contents_pushed {T : Type} (s : aligned_vector T) (t : Option T)
    (h : s.size_ < s.slots.length) : contents (pushed s t) = contents s ++ [t] := by
  unfold contents pushed
  simp only
  rw [List.take_succ, List.getElem?_set_self h, List.set_take,
    List.set_eq_of_length_le (by simp)]
  rfl

theorem contents_reserved {T : Type} (p : Params) (b : Nat) (s : aligned_vector T) (k : Nat)
    (hk : s.size_ ≤ k) (hlen : s.size_ ≤ s.slots.length) :
    contents (reserved p b s k) = contents s := by
  unfold contents reserved
  simp only
  rw [Nat.min_eq_left hk]
  exact List.take_left' (by rw [List.length_take]; omega)

theorem at_of_contents {T : Type} (s : aligned_vector T) (i : Nat) (v : Option T)
    (h : (contents s)[i]? = some v) :
    at_ s i = .ok v ∧ operator_subscript s i = .ok v := by
  unfold contents at h
  rw [List.getElem?_take] at h
  by_cases hi : i < s.size_
  · rw [if_pos hi] at h
    unfold at_ operator_subscript
    rw [if_pos hi, h]
    exact ⟨rfl, rfl⟩
  · rw [if_neg hi] at h
    cases h

theorem doubled_step {T : Type} (p : Params) (hp : p.Valid) (s : aligned_vector T)
    (hs : Inv p s) (hd : Doubled s) (hfull : s.capacity_ ≤ s.size_) (b : Nat)
    (t : Option T) : Doubled (pushed (reserved p b s (growth_target s)) t) := by
  obtain ⟨hg, _, _⟩ := growth_target_eq p hp s hs
  obtain ⟨hsz, _⟩ := reserved_size_lt p hp s hs hfull b
  have hle := hs.1
  right
  show ∃ e : Nat, growth_target s = 2 ^ e ∧
    growth_target s < 2 * ((reserved p b s (growth_target s)).size_ + 1)
  rw [hsz, hg]
  rcases hd with ⟨_, h0⟩ | ⟨e, he, h2⟩
  · exact ⟨0, by rw [if_pos h0]; rfl, by rw [if_pos h0]; omega⟩
  · have hpos : 0 < 2 ^ e := Nat.two_pow_pos e
    have hne : s.capacity_ ≠ 0 := by omega
    exact ⟨e + 1, by rw [if_neg hne, he, Nat.pow_succ], by rw [if_neg hne]; omega⟩

theorem push_backs_run {T : Type} (p : Params) (hp : p.Valid)
    (calls : List (Option Nat × Argument T)) :
    ∀ s : aligned_vector T, Inv p s → Doubled s →
    (∃ s1, push_backs p calls s = .bad_alloc s1 ∧ refused_at p calls s s1) ∨
    (∃ s1, push_backs p calls s = .ok s1 ∧ Inv p s1 ∧ Doubled s1 ∧
      s1.size_ = s.size_ + calls.length ∧
      ((∀ c ∈ calls, ∃ v, c.2 = Argument.object v) →
        contents s1 = contents s ++ calls.map (fun c => object_value c.2))) := by
  induction calls with
  | nil =>
    intro s hs hd
    right
    exact ⟨s, rfl, hs, hd, by simp, fun _ => by simp⟩
  | cons c rest ih =>
    intro s hs hd
    obtain ⟨resp, t⟩ := c
    have hlen : s.slots.length = s.capacity_ := hs.2.1
    have hrun : push_backs p ((resp, t) :: rest) s
        = (push_back p resp s t).bind (push_backs p rest) := rfl
    have key : ∀ (s2 : aligned_vector T) (fl : Bool), push_back p resp s t = .ok s2 →
        Inv p s2 → Doubled s2 → s2.size_ = s.size_ + 1 →
        contents s2 = contents s ++ [read_argument s fl t] →
        (∃ s1, push_backs p ((resp, t) :: rest) s = .bad_alloc s1 ∧
          refused_at p ((resp, t) :: rest) s s1) ∨
        (∃ s1, push_backs p ((resp, t) :: rest) s = .ok s1 ∧ Inv p s1 ∧ Doubled s1 ∧
          s1.size_ = s.size_ + ((resp, t) :: rest).length ∧
          ((∀ c ∈ (resp, t) :: rest, ∃ v, c.2 = Argument.object v) →
            contents s1 = contents s ++
              ((resp, t) :: rest).map (fun c => object_value c.2))) := by
      intro s2 fl h2 hi2 hd2 hsz2 hc2
      rw [hrun, h2]
      rcases ih s2 hi2 hd2 with
        ⟨s1, h1, before, c, post, hcalls, hbefore, hfull, hna⟩ | ⟨s1, h1, hi1, hd1, hsz1, hc1⟩
      · left
        refine ⟨s1, h1, (resp, t) :: before, c, post, by rw [hcalls]; rfl, ?_, hfull, hna⟩
        show (push_back p resp s t).bind (push_backs p before) = .ok s1
        rw [h2]
        exact hbefore
      · right
        refine ⟨s1, h1, hi1, hd1, ?_, ?_⟩
        · rw [hsz1, hsz2, List.length_cons]
          omega
        · intro hall
          obtain ⟨v, hv⟩ := hall (resp, t) (List.mem_cons_self _ _)
          have hv1 : t = Argument.object v := hv
          subst hv1
          rw [hc1 (fun c hc => hall c (List.mem_cons_of_mem _ hc)), hc2, List.map_cons,
            List.append_assoc]
          rfl
    rcases push_back_cases p hp resp s hs t with
      ⟨hfull0, hna, h⟩ | ⟨hlt, h⟩ | ⟨hfull, b, _, hb0, hbn, hbe, h⟩
    · left
      refine ⟨s, ?_, [], (resp, t), rest, rfl, rfl, hfull0, hna⟩
      rw [hrun, h]
      rfl
    · refine key _ false h (inv_pushed p s hs hlt _) ?_ rfl
        (contents_pushed s _ (by omega))
      rcases hd with ⟨h0, h1⟩ | ⟨e, he, h2⟩
      · omega
      · right
        exact ⟨e, he, by show s.capacity_ < 2 * (s.size_ + 1); omega⟩
    · have hsl : s.size_ ≤ s.slots.length := by rw [hlen]; exact hs.1
      obtain ⟨hrs, hrlt⟩ := reserved_size_lt p hp s hs hfull b
      have hri := inv_reserved p hp s hsl (growth_target s) b hb0 hbn hbe
      refine key _ true h (inv_pushed p _ hri hrlt _) (doubled_step p hp s hs hd hfull b _)
        (by show (reserved p b s (growth_target s)).size_ + 1 = s.size_ + 1; rw [hrs]) ?_
      rw [contents_pushed _ _ (by rw [hri.2.1]; exact hrlt),
        contents_reserved p b s _ (by
          have h3 : (reserved p b s (growth_target s)).capacity_ = growth_target s := rfl
          omega) hsl]

theorem params16_valid : params16.Valid :=
  ⟨by decide, ⟨4, rfl⟩, by decide⟩

/-! ## Growth by doubling (C1, C2) -/

/-- Without aliasing the pushed values are read back: when every argument of
a run of push_back calls on a newly constructed container is an object
outside the buffer and all calls return, the logical contents are the pushed
values in order, and at(i) and operator[](i) return the i-th of them. -/
theorem push_backs_objects_contents {T : Type} (p : Params) (hp : p.Valid)
    (calls : List (Option Nat × Argument T))
    (hobj : ∀ c ∈ calls, ∃ v, c.2 = Argument.object v) :
    (∃ s, push_backs p calls (aligned_vector.init T) = .bad_alloc s ∧
      refused_at p calls (aligned_vector.init T) s) ∨
    (∃ s, push_backs p calls (aligned_vector.init T) = .ok s ∧
      contents s = calls.map (fun c => object_value c.2) ∧
      ∀ (i : Nat) (h : i < calls.length),
        at_ s i = .ok (object_value (calls.get ⟨i, h⟩).2) ∧
        operator_subscript s i = .ok (object_value (calls.get ⟨i, h⟩).2)) := by
  rcases push_backs_run p hp calls _ (inv_init p) (Or.inl ⟨rfl, rfl⟩) with
    ⟨s, h, hc⟩ | ⟨s, h, _, _, _, hcont⟩
  · exact Or.inl ⟨s, h, hc⟩
  · right
    have hc0 : contents s = calls.map (fun c => object_value c.2) := by
      rw [hcont hobj]
      rfl
    refine ⟨s, h, hc0, fun i hi => at_of_contents s i _ ?_⟩
    rw [hc0, List.getElem?_map, List.getElem?_eq_getElem hi]
    rfl

/-- C2 fails when a pushed value is held by an element of the container
itself and the container is full: after push_back(x) with x = 7, the call
push_back(v[0]) reallocates, reserve releases the old array, and only then is
the reference read; the slot at index 1 receives the indeterminate content of
released memory and not the value 7 that v[0] held when the call was made.
Without a reallocation the same reference reads 7. -/
theorem push_back_alias_reads_released :
    push_back params16 (some 1000) (aligned_vector.init Nat) (Argument.object 7)
      = .ok after_one_push ∧
    at_ after_one_push 0 = .ok (some 7) ∧
    read_argument after_one_push false (Argument.element 0) = some 7 ∧
    read_argument after_one_push true (Argument.element 0) = none ∧
    push_back params16 (some 2000) after_one_push (Argument.element 0)
      = .ok after_alias_pushes ∧
    push_backs params16 alias_pushes (aligned_vector.init Nat) = .ok after_alias_pushes ∧
    at_ after_alias_pushes 0 = .ok (some 7) ∧
    at_ after_alias_pushes 1 = .ok none ∧
    at_ after_alias_pushes 1 ≠ .ok (some 7) ∧
    operator_subscript after_alias_pushes 1 ≠ .ok (some 7) := by
  decide

theorem after_reserve3_reachable : Reachable params16 after_reserve3 :=
  Reachable.ret (aligned_vector.init Nat) after_reserve3 (Op.reserve 3) (some 1000)
    Reachable.init (by show 3 < SIZE_MOD; decide) (by decide)

theorem push_backs_reachable {T : Type} (p : Params)
    (calls : List (Option Nat × Argument T)) :
    ∀ s s1 : aligned_vector T, Reachable p s → push_backs p calls s = .ok s1 →
      Reachable p s1 := by
  induction calls with
  | nil =>
    intro s s1 hs h
    cases h
    exact hs
  | cons c rest ih =>
    intro s s1 hs h
    obtain ⟨resp, t⟩ := c
    have hrun : push_backs p ((resp, t) :: rest) s
        = (push_back p resp s t).bind (push_backs p rest) := rfl
    rw [hrun] at h
    cases h2 : push_back p resp s t with
    | ok s2 =>
      rw [h2] at h
      exact ih s2 s1 (Reachable.ret s s2 (Op.push_back t) resp hs trivial h2) h
    | bad_alloc s2 => rw [h2] at h; cases h
    | assert_fail => rw [h2] at h; cases h
    | undefined => rw [h2] at h; cases h

theorem after_five_pushes_reachable : Reachable params16 after_five_pushes :=
  push_backs_reachable params16 five_pushes _ _ Reachable.init (by decide)

/-! ## reserve and resize (C3, C4, C5) -/

/-- C3: for every reachable state and every k, reserve(k) returns unless the
allocation fails or k + A - 1 does not fit size_t (then the assertion on the
aligned pointer stops it); when it returns, capacity() is exactly k and size()
is min(old size, k), truncated without error when k is below the old size. -/
theorem reserve_exact {T : Type} (p : Params) (hp : p.Valid) (s : aligned_vector T)
    (hs : Reachable p s) (k : Nat) (hk : k < SIZE_MOD) (resp : Option Nat) :
    (operator_new_array p (raw_length k p.A) resp = none ∧ reserve p resp s k = .bad_alloc s) ∨
    (SIZE_MOD ≤ k + p.A - 1 ∧ reserve p resp s k = .assert_fail) ∨
    (∃ s1, reserve p resp s k = .ok s1 ∧ capacity s1 = k ∧ size s1 = min (size s) k) := by
  have hi := reachable_inv p hp s hs
  have hlen : s.size_ ≤ s.slots.length := by rw [hi.2.1]; exact hi.1
  rcases reserve_cases p hp resp s hlen k hk with
    ⟨hna, h⟩ | ⟨hw, h⟩ | ⟨b, _, _, _, _, _, h⟩
  · exact Or.inl ⟨hna, h⟩
  · exact Or.inr (Or.inl ⟨hw, h⟩)
  · exact Or.inr (Or.inr ⟨_, h, rfl, rfl⟩)

theorem reserve_exact_witness :
    params16.Valid ∧ Reachable params16 after_reserve3 ∧ 1 < SIZE_MOD ∧
    reserve params16 (some 1000) (aligned_vector.init Nat) 3 = .ok after_reserve3 ∧
    reserve params16 (some 2004) after_reserve3 1 =
      .ok { data_ := 2016, raw_data_ := 2004, size_ := 0, capacity_ := 1, raw_count := 16,
            slots := [none] } ∧
    ((operator_new_array params16 (raw_length 1 params16.A) (some 2004) = none ∧
        reserve params16 (some 2004) after_reserve3 1 = .bad_alloc after_reserve3) ∨
      (SIZE_MOD ≤ 1 + params16.A - 1 ∧
        reserve params16 (some 2004) after_reserve3 1 = .assert_fail) ∨
      (∃ s1, reserve params16 (some 2004) after_reserve3 1 = .ok s1 ∧ capacity s1 = 1 ∧
        size s1 = min (size after_reserve3) 1)) :=
  ⟨params16_valid, after_reserve3_reachable, by decide, by decide, by decide,
    reserve_exact params16 params16_valid after_reserve3 after_reserve3_reachable 1
      (by decide) (some 2004)⟩

theorem slots_reserved {T : Type} (p : Params) (b : Nat) (s : aligned_vector T) (k i : Nat)
    (hi : i < min s.size_ k) (hlen : s.size_ ≤ s.slots.length) :
    (reserved p b s k).slots[i]? = s.slots[i]? := by
  unfold reserved
  simp only
  rw [List.getElem?_append_left (by rw [List.length_take]; omega),
    List.getElem?_take_of_lt hi]

theorem slots_reserved_fresh {T : Type} (p : Params) (b : Nat) (s : aligned_vector T)
    (k i : Nat) (hi : min s.size_ k ≤ i) (hik : i < k) (hlen : s.size_ ≤ s.slots.length) :
    (reserved p b s k).slots[i]? = some none := by
  unfold reserved
  simp only
  have hl : (List.take (min s.size_ k) s.slots).length = min s.size_ k := by
    rw [List.length_take]
    omega
  rw [List.getElem?_append_right (by rw [hl]; exact hi), hl,
    List.getElem?_replicate_of_lt (by omega)]

theorem slots_pushed {T : Type} (s : aligned_vector T) (t : Option T) (i : Nat)
    (hi : i < s.size_) :
    (pushed s t).slots[i]? = s.slots[i]? := by
  unfold pushed
  simp only
  rw [List.getElem?_set_ne (by omega)]

theorem read_ok {T : Type} (s : aligned_vector T) (i : Nat) (v : Option T)
    (hi : i < s.size_) (hv : s.slots[i]? = some v) :
    at_ s i = .ok v ∧ operator_subscript s i = .ok v := by
  unfold at_ operator_subscript
  rw [if_pos hi, hv]
  exact ⟨rfl, rfl⟩

theorem read_same {T : Type} (s s1 : aligned_vector T) (i : Nat) (hi : i < s.size_)
    (hlen : s.size_ ≤ s.slots.length) (hi1 : i < s1.size_)
    (hsl : s1.slots[i]? = s.slots[i]?) :
    ∃ v, at_ s i = .ok v ∧ at_ s1 i = .ok v ∧
      operator_subscript s i = .ok v ∧ operator_subscript s1 i = .ok v := by
  have hv : s.slots[i]? = some (s.slots.get ⟨i, by omega⟩) := List.getElem?_eq_getElem _
  obtain ⟨h1, h2⟩ := read_ok s i _ hi hv
  obtain ⟨h3, h4⟩ := read_ok s1 i _ hi1 (hsl.trans hv)
  exact ⟨_, h1, h3, h2, h4⟩

/-- C4: value preservation across growth. In every reachable state, when
push_back(v), reserve(k) or resize(k) returns, each index that existed before
and still exists after (i < old size for push_back, i < min(old size, k) for
reserve and resize) reads, through at and operator[], the same value as
before; reserve relocates exactly the first min(size, k) elements, the slots
from there up to k being fresh. -/
theorem growth_preserves_values {T : Type} (p : Params) (hp : p.Valid)
    (s : aligned_vector T) (hs : Reachable p s) (resp : Option Nat) :
    (∀ (t : Argument T) (s1 : aligned_vector T), push_back p resp s t = .ok s1 →
      ∀ i, i < size s → ∃ v, at_ s i = .ok v ∧ at_ s1 i = .ok v ∧
        operator_subscript s i = .ok v ∧ operator_subscript s1 i = .ok v) ∧
    (∀ (k : Nat) (s1 : aligned_vector T), k < SIZE_MOD → reserve p resp s k = .ok s1 →
      (∀ i, i < min (size s) k → ∃ v, at_ s i = .ok v ∧ at_ s1 i = .ok v ∧
        operator_subscript s i = .ok v ∧ operator_subscript s1 i = .ok v) ∧
      (∀ i, min (size s) k ≤ i → i < k → s1.slots[i]? = some none)) ∧
    (∀ (k : Nat) (s1 : aligned_vector T), k < SIZE_MOD → resize p resp s k = .ok s1 →
      ∀ i, i < min (size s) k → ∃ v, at_ s i = .ok v ∧ at_ s1 i = .ok v ∧
        operator_subscript s i = .ok v ∧ operator_subscript s1 i = .ok v) := by
  have hi := reachable_inv p hp s hs
  have hlen : s.size_ ≤ s.slots.length := by rw [hi.2.1]; exact hi.1
  refine ⟨?_, ?_, ?_⟩
  · intro t s1 h i hlt
    have hlt0 : i < s.size_ := hlt
    rcases push_back_cases p hp resp s hi t with
      ⟨_, _, h1⟩ | ⟨_, h1⟩ | ⟨hfull, b, _, _, _, _, h1⟩
    · rw [h1] at h
      cases h
    · rw [h1] at h
      cases h
      exact read_same s _ i hlt0 hlen (by show i < s.size_ + 1; omega)
        (slots_pushed s _ i hlt0)
    · rw [h1] at h
      cases h
      obtain ⟨hrs, _⟩ := reserved_size_lt p hp s hi hfull b
      have hmin : min s.size_ (growth_target s) = s.size_ := hrs
      refine read_same s _ i hlt0 hlen
        (by show i < (reserved p b s (growth_target s)).size_ + 1; omega) ?_
      rw [slots_pushed _ _ i (by omega), slots_reserved p b s _ i (by omega) hlen]
  · intro k s1 hk h
    rcases reserve_cases p hp resp s hlen k hk with
      ⟨_, h1⟩ | ⟨_, h1⟩ | ⟨b, _, _, _, _, _, h1⟩
    · rw [h1] at h
      cases h
    · rw [h1] at h
      cases h
    · rw [h1] at h
      cases h
      refine ⟨fun i hlt => ?_, fun i h1 h2 => slots_reserved_fresh p b s k i h1 h2 hlen⟩
      have hlt0 : i < min s.size_ k := hlt
      exact read_same s _ i (by omega) hlen hlt0 (slots_reserved p b s k i hlt0 hlen)
  · intro k s1 hk h
    unfold resize at h
    rcases reserve_cases p hp resp s hlen k hk with
      ⟨_, h1⟩ | ⟨_, h1⟩ | ⟨b, _, _, _, _, _, h1⟩
    · rw [h1] at h
      cases h
    · rw [h1] at h
      cases h
    · rw [h1] at h
      cases h
      intro i hlt
      have hlt0 : i < min s.size_ k := hlt
      exact read_same s _ i (by omega) hlen (by show i < k; omega)
        (slots_reserved p b s k i hlt0 hlen)

theorem growth_preserves_values_witness :
    params16.Valid ∧ Reachable params16 after_five_pushes ∧
    reserve params16 (some 7001) after_five_pushes 3 =
      .ok { data_ := 7008, raw_data_ := 7001, size_ := 3, capacity_ := 3, raw_count := 18,
            slots := [some 0, some 1, some 2] } ∧
    at_ after_five_pushes 2 = .ok (some 2) ∧
    ((∀ (t : Argument Nat) (s1 : aligned_vector Nat),
      push_back params16 (some 7001) after_five_pushes t = .ok s1 →
      ∀ i, i < size after_five_pushes → ∃ v, at_ after_five_pushes i = .ok v ∧
        at_ s1 i = .ok v ∧ operator_subscript after_five_pushes i = .ok v ∧
        operator_subscript s1 i = .ok v) ∧
    (∀ (k : Nat) (s1 : aligned_vector Nat), k < SIZE_MOD →
      reserve params16 (some 7001) after_five_pushes k = .ok s1 →
      (∀ i, i < min (size after_five_pushes) k → ∃ v, at_ after_five_pushes i = .ok v ∧
        at_ s1 i = .ok v ∧ operator_subscript after_five_pushes i = .ok v ∧
        operator_subscript s1 i = .ok v) ∧
      (∀ i, min (size after_five_pushes) k ≤ i → i < k → s1.slots[i]? = some none)) ∧
    (∀ (k : Nat) (s1 : aligned_vector Nat), k < SIZE_MOD →
      resize params16 (some 7001) after_five_pushes k = .ok s1 →
      ∀ i, i < min (size after_five_pushes) k → ∃ v, at_ after_five_pushes i = .ok v ∧
        at_ s1 i = .ok v ∧ operator_subscript after_five_pushes i = .ok v ∧
        operator_subscript s1 i = .ok v)) :=
  ⟨params16_valid, after_five_pushes_reachable, by decide, by decide,
    growth_preserves_values params16 params16_valid after_five_pushes
      after_five_pushes_reachable (some 7001)⟩

/-- C5: for every reachable state and every k, resize(k) is reserve(k)
followed by the assignment of k to the size; it returns unless the allocation
fails or k + A - 1 does not fit size_t, and when it returns size() is k and
capacity() is exactly k, whether k is above, equal to or below the previous
size and capacity. -/
theorem resize_exact {T : Type} (p : Params) (hp : p.Valid) (s : aligned_vector T)
    (hs : Reachable p s) (k : Nat) (hk : k < SIZE_MOD) (resp : Option Nat) :
    resize p resp s k = (reserve p resp s k).bind (fun s1 => .ok { s1 with size_ := k }) ∧
    ((operator_new_array p (raw_length k p.A) resp = none ∧
        resize p resp s k = .bad_alloc s) ∨
      (SIZE_MOD ≤ k + p.A - 1 ∧ resize p resp s k = .assert_fail) ∨
      (∃ s1, resize p resp s k = .ok s1 ∧ size s1 = k ∧ capacity s1 = k)) := by
  have hi := reachable_inv p hp s hs
  have hlen : s.size_ ≤ s.slots.length := by rw [hi.2.1]; exact hi.1
  refine ⟨rfl, ?_⟩
  unfold resize
  rcases reserve_cases p hp resp s hlen k hk with
    ⟨hna, h⟩ | ⟨hw, h⟩ | ⟨b, _, _, _, _, _, h⟩
  · rw [h]
    exact Or.inl ⟨hna, rfl⟩
  · rw [h]
    exact Or.inr (Or.inl ⟨hw, rfl⟩)
  · rw [h]
    exact Or.inr (Or.inr ⟨_, rfl, rfl, rfl⟩)

theorem resize_exact_witness :
    params16.Valid ∧ Reachable params16 after_five_pushes ∧ 2 < SIZE_MOD ∧
    resize params16 (some 7001) after_five_pushes 2 =
      .ok { data_ := 7008, raw_data_ := 7001, size_ := 2, capacity_ := 2, raw_count := 17,
            slots := [some 0, some 1] } ∧
    resize params16 (some 7001) after_five_pushes 9 =
      .ok { data_ := 7008, raw_data_ := 7001, size_ := 9, capacity_ := 9, raw_count := 24,
            slots := [some 0, some 1, some 2, some 3, some 4, none, none, none, none] } ∧
    resize params16 (some 7001) after_five_pushes 2 =
      (reserve params16 (some 7001) after_five_pushes 2).bind
        (fun s1 => .ok { s1 with size_ := 2 }) ∧
    ((operator_new_array params16 (raw_length 2 params16.A) (some 7001) = none ∧
        resize params16 (some 7001) after_five_pushes 2 = .bad_alloc after_five_pushes) ∨
      (SIZE_MOD ≤ 2 + params16.A - 1 ∧
        resize params16 (some 7001) after_five_pushes 2 = .assert_fail) ∨
      (∃ s1, resize params16 (some 7001) after_five_pushes 2 = .ok s1 ∧ size s1 = 2 ∧
        capacity s1 = 2)) :=
  ⟨params16_valid, after_five_pushes_reachable, by decide, by decide, by decide,
    resize_exact params16 params16_valid after_five_pushes after_five_pushes_reachable 2
      (by decide) (some 7001)⟩

theorem after_two_pushes_reachable : Reachable params16 after_two_pushes :=
  push_backs_reachable params16 [(some 1000, .object 0), (some 2000, .object 1)] _ _
    Reachable.init (by decide)

theorem clear_of_inv {T : Type} (p : Params) (s : aligned_vector T) (hs : Inv p s) :
    clear s = aligned_vector.init T := by
  obtain ⟨hsz, hlen, _, h0, _⟩ := hs
  unfold clear free_data_
  by_cases hr : s.raw_data_ = 0
  · rw [if_neg (by simpa using hr)]
    obtain ⟨hd, hcap, hrc⟩ := h0 hr
    obtain ⟨d, r, sz, c, rc, sl⟩ := s
    simp only at hr hd hcap hrc hsz hlen
    subst hr hd hcap hrc
    have hsz0 : sz = 0 := by omega
    have hsl : sl = [] := List.length_eq_zero.mp hlen
    subst hsz0 hsl
    rfl
  · rw [if_pos hr]
    rfl

/-! ## clear and the invariants (C6, C7, C8, C9) -/

/-- C6: in every reachable state clear() leaves size() == 0 and
capacity() == 0 with the raw buffer released (raw and aligned pointers null,
nothing allocated), and calling clear() twice yields the same state as
calling it once. -/
theorem clear_resets {T : Type} (p : Params) (hp : p.Valid) (s : aligned_vector T)
    (hs : Reachable p s) :
    size (clear s) = 0 ∧ capacity (clear s) = 0 ∧ (clear s).raw_data_ = 0 ∧
    data (clear s) = 0 ∧ clear s = aligned_vector.init T ∧ clear (clear s) = clear s := by
  rw [clear_of_inv p s (reachable_inv p hp s hs)]
  exact ⟨rfl, rfl, rfl, rfl, rfl, rfl⟩

theorem clear_resets_witness :
    params16.Valid ∧ Reachable params16 after_five_pushes ∧
    size (clear after_five_pushes) = 0 ∧ capacity (clear after_five_pushes) = 0 ∧
    (clear after_five_pushes).raw_data_ = 0 ∧ data (clear after_five_pushes) = 0 ∧
    clear after_five_pushes = aligned_vector.init Nat ∧
    clear (clear after_five_pushes) = clear after_five_pushes :=
  ⟨params16_valid, after_five_pushes_reachable,
    clear_resets params16 params16_valid after_five_pushes after_five_pushes_reachable⟩

/-- C7: invariant 1. size <= capacity holds for a newly constructed
container, holds after every public operation (push_back, emplace_back,
reserve(k), resize(k), clear, a write through operator[]) that returns from a
reachable state, and hence holds in every reachable state. -/
theorem size_le_capacity {T : Type} (p : Params) (hp : p.Valid) :
    size (aligned_vector.init T) ≤ capacity (aligned_vector.init T) ∧
    (∀ (s s1 : aligned_vector T) (op : Op T) (resp : Option Nat), Reachable p s → op.wf →
      step p resp s op = .ok s1 → size s1 ≤ capacity s1) ∧
    (∀ s : aligned_vector T, Reachable p s → size s ≤ capacity s) :=
  ⟨Nat.le_refl 0,
    fun s s1 op resp hs hw h =>
      ((step_inv p hp resp s (reachable_inv p hp s hs) op hw).1 s1 h).1,
    fun s hs => (reachable_inv p hp s hs).1⟩

theorem size_le_capacity_witness :
    params16.Valid ∧ Reachable params16 after_five_pushes ∧
    size after_five_pushes ≤ capacity after_five_pushes :=
  ⟨params16_valid, after_five_pushes_reachable,
    (size_le_capacity params16 params16_valid).2.2 after_five_pushes
      after_five_pushes_reachable⟩

/-- C8, as stated, fails after reserve(0) and after resize(0): both return
with capacity 0 while the raw buffer and the aligned view are non-null (an
array of A - 1 elements was allocated). -/
theorem reserve_zero_keeps_buffer :
    step params16 (some 1000) (aligned_vector.init Nat) (Op.reserve 0) = .ok after_reserve0 ∧
    step params16 (some 1000) after_five_pushes (Op.resize 0) = .ok after_reserve0 ∧
    capacity after_reserve0 = 0 ∧
    ¬ (after_reserve0.raw_data_ = 0 ∧ data after_reserve0 = 0 ∧ size after_reserve0 = 0) := by
  decide

/-- C8 (amended): in every reachable state, if capacity == 0 then size == 0,
and the raw buffer and the aligned view are either both null (nothing
allocated) or both non-null; they are both null in a new container and after
clear, and both non-null whenever reserve(0) or resize(0) returns. -/
theorem capacity_zero_state {T : Type} (p : Params) (hp : p.Valid) (s : aligned_vector T)
    (hs : Reachable p s) :
    (capacity s = 0 → size s = 0 ∧
      ((s.raw_data_ = 0 ∧ data s = 0 ∧ s.raw_count = 0) ∨
        (s.raw_data_ ≠ 0 ∧ data s ≠ 0 ∧ s.raw_count = p.A - 1))) ∧
    ((aligned_vector.init T).raw_data_ = 0 ∧ data (aligned_vector.init T) = 0) ∧
    ((clear s).raw_data_ = 0 ∧ data (clear s) = 0) ∧
    (∀ (resp : Option Nat) (s1 : aligned_vector T),
      reserve p resp s 0 = .ok s1 ∨ resize p resp s 0 = .ok s1 →
      capacity s1 = 0 ∧ size s1 = 0 ∧ s1.raw_data_ ≠ 0 ∧ data s1 ≠ 0) := by
  have hi := reachable_inv p hp s hs
  obtain ⟨hsz, hlen, _, h0, h1⟩ := id hi
  have hlen1 : s.size_ ≤ s.slots.length := by omega
  obtain ⟨_, hA⟩ := valid_pos p hp
  have hclr : clear s = aligned_vector.init T := clear_of_inv p s hi
  refine ⟨?_, ⟨rfl, rfl⟩, by rw [hclr]; exact ⟨rfl, rfl⟩, ?_⟩
  · intro hc
    have hc0 : s.capacity_ = 0 := hc
    refine ⟨by show s.size_ = 0; omega, ?_⟩
    by_cases hr : s.raw_data_ = 0
    · exact Or.inl ⟨hr, (h0 hr).1, (h0 hr).2.2⟩
    · obtain ⟨hd, hrc, _⟩ := h1 hr
      exact Or.inr ⟨hr, hd, by rw [hrc, hc0]; omega⟩
  · intro resp s1 h
    have hk : (0 : Nat) < SIZE_MOD := by decide
    have key : reserve p resp s 0 = .ok s1 ∨
        (reserve p resp s 0).bind (fun s2 => .ok { s2 with size_ := 0 }) = .ok s1 := h
    rcases reserve_cases p hp resp s hlen1 0 hk with
      ⟨_, hr⟩ | ⟨_, hr⟩ | ⟨b, _, hb0, _, _, _, hr⟩
    · rw [hr] at key
      rcases key with h2 | h2 <;> cases h2
    · rw [hr] at key
      rcases key with h2 | h2 <;> cases h2
    · rw [hr] at key
      obtain ⟨h3, _, _, _⟩ := round_up_props b p.A hA
      have hmin : min s.size_ 0 = 0 := by omega
      rcases key with h2 | h2
      · cases h2
        exact ⟨rfl, hmin, by show b ≠ 0; omega,
          by show (b + p.A - 1) / p.A * p.A ≠ 0; omega⟩
      · cases h2
        exact ⟨rfl, rfl, by show b ≠ 0; omega,
          by show (b + p.A - 1) / p.A * p.A ≠ 0; omega⟩

theorem capacity_zero_state_witness :
    params16.Valid ∧ Reachable params16 after_five_pushes ∧
    ((capacity after_five_pushes = 0 → size after_five_pushes = 0 ∧
      ((after_five_pushes.raw_data_ = 0 ∧ data after_five_pushes = 0 ∧
          after_five_pushes.raw_count = 0) ∨
        (after_five_pushes.raw_data_ ≠ 0 ∧ data after_five_pushes ≠ 0 ∧
          after_five_pushes.raw_count = params16.A - 1))) ∧
    ((aligned_vector.init Nat).raw_data_ = 0 ∧ data (aligned_vector.init Nat) = 0) ∧
    ((clear after_five_pushes).raw_data_ = 0 ∧ data (clear after_five_pushes) = 0) ∧
    (∀ (resp : Option Nat) (s1 : aligned_vector Nat),
      reserve params16 resp after_five_pushes 0 = .ok s1 ∨
        resize params16 resp after_five_pushes 0 = .ok s1 →
      capacity s1 = 0 ∧ size s1 = 0 ∧ s1.raw_data_ ≠ 0 ∧ data s1 ≠ 0)) :=
  ⟨params16_valid, after_five_pushes_reachable,
    capacity_zero_state params16 params16_valid after_five_pushes
      after_five_pushes_reachable⟩

/-- C9: alignment invariant. In every reachable state in which a buffer is
allocated, the address data() is a multiple of A and is the lowest multiple
of A at or above the base address of the raw buffer, whatever addresses the
allocator returned. -/
theorem data_aligned {T : Type} (p : Params) (hp : p.Valid) (s : aligned_vector T)
    (hs : Reachable p s) (hr : s.raw_data_ ≠ 0) :
    data s % p.A = 0 ∧ s.raw_data_ ≤ data s ∧
    ∀ a, s.raw_data_ ≤ a → a % p.A = 0 → data s ≤ a := by
  obtain ⟨_, _, _, _, h1⟩ := reachable_inv p hp s hs
  obtain ⟨_, _, _, _, hd, _⟩ := h1 hr
  obtain ⟨_, hA⟩ := valid_pos p hp
  obtain ⟨h3, _, h5, h6⟩ := round_up_props s.raw_data_ p.A hA
  have hd0 : data s = (s.raw_data_ + p.A - 1) / p.A * p.A := hd
  rw [hd0]
  exact ⟨h5, h3, h6⟩

theorem data_aligned_witness :
    params16.Valid ∧ Reachable params16 after_five_pushes ∧
    after_five_pushes.raw_data_ ≠ 0 ∧ data after_five_pushes = 4016 ∧
    (data after_five_pushes % params16.A = 0 ∧
      after_five_pushes.raw_data_ ≤ data after_five_pushes ∧
      ∀ a, after_five_pushes.raw_data_ ≤ a → a % params16.A = 0 →
        data after_five_pushes ≤ a) :=
  ⟨params16_valid, after_five_pushes_reachable, by decide, rfl,
    data_aligned params16 params16_valid after_five_pushes after_five_pushes_reachable
      (by decide)⟩

/-! ## Allocation failure (C10) -/

theorem reserve_threw {T : Type} (p : Params) (resp : Option Nat) (s s1 : aligned_vector T)
    (k : Nat) (h : reserve p resp s k = .bad_alloc s1) : s1 = s := by
  unfold reserve at h
  cases ha : alloc_aligned_ p resp k p.A with
  | none =>
    rw [ha] at h
    cases h
    rfl
  | some pr =>
    obtain ⟨a, b⟩ := pr
    rw [ha] at h
    simp only at h
    by_cases h1 : a.base = 0
    · rw [if_pos h1] at h
      cases h
    · rw [if_neg h1] at h
      by_cases h2 : b = 0
      · rw [if_pos h2] at h
        cases h
      · rw [if_neg h2] at h
        split at h <;> cases h

theorem bind_threw {T : Type} (r : Outcome T (aligned_vector T))
    (f : aligned_vector T → Outcome T (aligned_vector T)) (s s1 : aligned_vector T)
    (hr : ∀ s2, r = .bad_alloc s2 → s2 = s) (hf : ∀ s2 s3, f s2 ≠ .bad_alloc s3)
    (h : r.bind f = .bad_alloc s1) : s1 = s := by
  cases r with
  | ok v => exact absurd h (hf v s1)
  | bad_alloc s2 =>
    cases h
    exact hr _ rfl
  | assert_fail => cases h
  | undefined => cases h

theorem push_back_threw {T : Type} (p : Params) (resp : Option Nat)
    (s s1 : aligned_vector T) (t : Argument T) (h : push_back p resp s t = .bad_alloc s1) :
    s1 = s := by
  unfold push_back at h
  refine bind_threw _ _ s s1 ?_ ?_ h
  · intro s2 h2
    split at h2
    · exact reserve_threw p resp s s2 _ h2
    · cases h2
  · intro s2 s3 h3
    split at h3 <;> cases h3

/-- C10: allocation-failure atomicity. If the allocation inside reserve(k)
fails, reserve and resize end with std::bad_alloc and the container state
(pointers, size, capacity, contents) exactly as before the call; the same
holds for push_back, both overloads, and emplace_back when the container is
full and the allocation of their reserve fails, so nothing is appended; and
whenever a public operation ends with std::bad_alloc the state is the one
before the call. -/
theorem alloc_failure_atomic {T : Type} (p : Params) (resp : Option Nat)
    (s : aligned_vector T) :
    (∀ k, operator_new_array p (raw_length k p.A) resp = none →
      reserve p resp s k = .bad_alloc s ∧ resize p resp s k = .bad_alloc s) ∧
    (∀ t, s.capacity_ ≤ s.size_ →
      operator_new_array p (raw_length (growth_target s) p.A) resp = none →
      push_back p resp s t = .bad_alloc s ∧ push_back_const p resp s t = .bad_alloc s ∧
      emplace_back p resp s t = .bad_alloc s) ∧
    (∀ (op : Op T) (s1 : aligned_vector T), step p resp s op = .bad_alloc s1 → s1 = s) := by
  have hres : ∀ k, operator_new_array p (raw_length k p.A) resp = none →
      reserve p resp s k = .bad_alloc s := by
    intro k h
    unfold reserve alloc_aligned_
    rw [h]
  refine ⟨fun k h => ⟨hres k h, ?_⟩, fun t hfull h => ?_, fun op s1 h => ?_⟩
  · unfold resize
    rw [hres k h]
    rfl
  · have hpb : push_back p resp s t = .bad_alloc s := by
      unfold push_back
      rw [if_pos hfull]
      have hr := hres (growth_target s) h
      unfold growth_target at hr
      rw [hr]
      rfl
    exact ⟨hpb, hpb, hpb⟩
  · cases op with
    | push_back t => exact push_back_threw p resp s s1 t h
    | push_back_const t => exact push_back_threw p resp s s1 t h
    | emplace_back t => exact push_back_threw p resp s s1 t h
    | resize k =>
      refine bind_threw _ _ s s1 (fun s2 h2 => reserve_threw p resp s s2 k h2) ?_ h
      intro s2 s3 h3
      cases h3
    | reserve k => exact reserve_threw p resp s s1 k h
    | clear => cases h
    | assign_at pos t =>
      have h2 : assign_at s pos t = .bad_alloc s1 := h
      unfold assign_at at h2
      repeat' split at h2
      all_goals cases h2

theorem alloc_failure_atomic_witness :
    operator_new_array params16 (raw_length 5 params16.A) none = none ∧
    after_two_pushes.capacity_ ≤ after_two_pushes.size_ ∧
    operator_new_array params16 (raw_length (growth_target after_two_pushes) params16.A)
      none = none ∧
    (reserve params16 none after_two_pushes 5 = .bad_alloc after_two_pushes ∧
      resize params16 none after_two_pushes 5 = .bad_alloc after_two_pushes) ∧
    (push_back params16 none after_two_pushes (Argument.object 7)
        = .bad_alloc after_two_pushes ∧
      push_back_const params16 none after_two_pushes (Argument.object 7)
        = .bad_alloc after_two_pushes ∧
      emplace_back params16 none after_two_pushes (Argument.object 7)
        = .bad_alloc after_two_pushes) :=
  ⟨rfl, by decide, rfl,
    (alloc_failure_atomic params16 none after_two_pushes).1 5 rfl,
    (alloc_failure_atomic params16 none after_two_pushes).2.1 (Argument.object 7)
      (by decide) rfl⟩

/-! ## The overloads of push_back (C11) -/

/-- C11: emplace_back(value) behaves identically to push_back(value): for
every state, every argument (an outside object or an element of the
container) and every answer of the allocator the outcome of emplace_back
equals the outcome of push_back, and the overload of push_back
taking a read-only reference has the same outcome as the one taking a mutable
reference. -/
theorem emplace_back_is_push_back {T : Type} (p : Params) (resp : Option Nat)
    (s : aligned_vector T) (t : Argument T) :
    emplace_back p resp s t = push_back p resp s t ∧
    push_back_const p resp s t = push_back p resp s t := by
  constructor
  · unfold emplace_back
    rfl
  · unfold push_back_const push_back
    rfl

/-! ## The aligned region inside the raw array (C12, C13) -/

theorem aligned_region_fits (b k s A : Nat) (hs : 1 ≤ s) (hA : 1 ≤ A) :
    (b + A - 1) / A * A + k * s ≤ b + (k + A - 1) * s := by
  have h1 : (k + A - 1) * s = k * s + (A - 1) * s := by
    have hkA : k + A - 1 = k + (A - 1) := by omega
    rw [← Nat.add_mul, hkA]
  have h2 : A - 1 ≤ (A - 1) * s := Nat.le_mul_of_pos_right _ hs
  obtain ⟨_, h4, _, _⟩ := round_up_props b A hA
  omega

theorem alloc_aligned_fits (p : Params) (hp : p.Valid) (resp : Option Nat) (k b : Nat)
    (hnw : k + p.A - 1 < SIZE_MOD)
    (hb : operator_new_array p (k + p.A - 1) resp
      = some { base := b, count := k + p.A - 1 }) :
    alloc_aligned_ p resp k p.A
      = some ({ base := b, count := k + p.A - 1 }, (b + p.A - 1) / p.A * p.A) ∧
    b ≠ 0 ∧ (b + p.A - 1) / p.A * p.A ≠ 0 ∧
    (b + p.A - 1) / p.A * p.A + k * p.sizeofT ≤ b + (k + p.A - 1) * p.sizeofT := by
  obtain ⟨hs1, hA⟩ := valid_pos p hp
  obtain ⟨_, hb0, hbn, _⟩ := new_array_some p _ resp b _ hb
  obtain ⟨h3, _, _, _⟩ := round_up_props b p.A hA
  refine ⟨?_, by omega, by omega, aligned_region_fits b k p.sizeofT p.A hs1 hA⟩
  unfold alloc_aligned_
  rw [raw_length_eq k p.A hA hnw, hb]
  simp only
  rw [align_fit p k b hs1 hA hbn]

theorem reachable_region {T : Type} (p : Params) (hp : p.Valid) (s : aligned_vector T)
    (hs : Reachable p s) (hr : s.raw_data_ ≠ 0) :
    s.raw_data_ ≤ s.data_ ∧
    s.data_ + s.capacity_ * p.sizeofT ≤ s.raw_data_ + s.raw_count * p.sizeofT := by
  obtain ⟨_, _, _, _, h1⟩ := reachable_inv p hp s hs
  obtain ⟨_, _, _, _, hd, hfit⟩ := h1 hr
  obtain ⟨_, hA⟩ := valid_pos p hp
  obtain ⟨h3, _, _, _⟩ := round_up_props s.raw_data_ p.A hA
  exact ⟨by rw [hd]; exact h3, hfit⟩

/-- C12 fails for a requested capacity k with k + A - 1 above SIZE_MAX: for
Alignment 16, a 4-byte element and k = SIZE_MAX the count `size +
alignment_size - 1` wraps to 14, the allocation of 14 elements succeeds,
std::align cannot fit the region and alloc_aligned_ returns null, so the
assertion on new_aligned_data in reserve fails. -/
theorem alloc_aligned_null_on_wrap :
    raw_length SIZE_MAX params16.A = 14 ∧
    operator_new_array params16 14 (some 1000) = some { base := 1000, count := 14 } ∧
    alloc_aligned_ params16 (some 1000) SIZE_MAX params16.A
      = some ({ base := 1000, count := 14 }, 0) ∧
    reserve params16 (some 1000) (aligned_vector.init Nat) SIZE_MAX = .assert_fail := by
  decide

/-- C13, as stated, fails when sizeof(T) > 1 and Alignment > 1: for
Alignment 16 and a 4-byte element, alloc_aligned_ called by reserve(3) creates
an array of 3 + 15 = 18 elements, not of 3 + ceil(16 / 4) - 1 = 6. -/
theorem raw_count_not_as_claimed :
    alloc_aligned_ params16 (some 1000) 3 params16.A
      = some ({ base := 1000, count := 18 }, 1008) ∧
    reserve params16 (some 1000) (aligned_vector.init Nat) 3 = .ok after_reserve3 ∧
    after_reserve3.raw_count = 18 ∧ claimed_raw_count params16 3 = 6 ∧
    after_reserve3.raw_count ≠ claimed_raw_count params16 3 := by
  decide

theorem ceil_div_eq_iff (A s : Nat) (hA : 1 ≤ A) (hs : 1 ≤ s) :
    (A + s - 1) / s = A ↔ s = 1 ∨ A = 1 := by
  constructor
  · intro h
    by_contra hcon
    have h3 : 2 * s ≤ A * s := Nat.mul_le_mul_right s (by omega)
    have h4 : A * 2 ≤ A * s := Nat.mul_le_mul_left A (by omega)
    have h5 : (A + s - 1) / s < A := by
      rw [Nat.div_lt_iff_lt_mul (by omega)]
      omega
    omega
  · rintro (h | h)
    · rw [h, Nat.div_one]
      omega
    · rw [h]
      have h1 : 1 + s - 1 = s := by omega
      rw [h1, Nat.div_self (by omega)]

/-- C13 (amended): for every reachable state and every newCapacity, when
reserve(newCapacity) returns, the raw array created by new in alloc_aligned_
and installed as raw_data_ holds exactly newCapacity + Alignment - 1 elements
of type T, whatever sizeof(T) is (Alignment = 16 gives newCapacity + 15
elements); this is the count newCapacity + ceil(Alignment / sizeof(T)) - 1 of
the specification exactly when sizeof(T) is 1 or Alignment is 1. -/
theorem reserve_raw_count {T : Type} (p : Params) (hp : p.Valid) (s : aligned_vector T)
    (hs : Reachable p s) (k : Nat) (hk : k < SIZE_MOD) (resp : Option Nat)
    (s1 : aligned_vector T) (h : reserve p resp s k = .ok s1) :
    alloc_aligned_ p resp k p.A
      = some ({ base := s1.raw_data_, count := s1.raw_count }, data s1) ∧
    operator_new_array p (raw_length k p.A) resp
      = some { base := s1.raw_data_, count := s1.raw_count } ∧
    s1.raw_count = k + p.A - 1 ∧
    (s1.raw_count = claimed_raw_count p k ↔ p.sizeofT = 1 ∨ p.A = 1) := by
  have hi := reachable_inv p hp s hs
  have hlen : s.size_ ≤ s.slots.length := by rw [hi.2.1]; exact hi.1
  obtain ⟨hs1, hA⟩ := valid_pos p hp
  rcases reserve_cases p hp resp s hlen k hk with
    ⟨_, h1⟩ | ⟨_, h1⟩ | ⟨b, hna, _, hnw, _, _, h1⟩
  · rw [h1] at h
    cases h
  · rw [h1] at h
    cases h
  · rw [h1] at h
    cases h
    refine ⟨(alloc_aligned_fits p hp resp k b hnw hna).1, ?_, rfl, ?_⟩
    · rw [raw_length_eq k p.A hA hnw]
      exact hna
    · show k + p.A - 1 = claimed_raw_count p k ↔ p.sizeofT = 1 ∨ p.A = 1
      unfold claimed_raw_count
      rw [← ceil_div_eq_iff p.A p.sizeofT hA hs1]
      have hq : 1 ≤ (p.A + p.sizeofT - 1) / p.sizeofT := by
        rw [Nat.le_div_iff_mul_le (by omega)]
        omega
      omega

theorem reserve_raw_count_witness :
    params16.Valid ∧ Reachable params16 after_five_pushes ∧ 3 < SIZE_MOD ∧
    reserve params16 (some 7001) after_five_pushes 3 =
      .ok { data_ := 7008, raw_data_ := 7001, size_ := 3, capacity_ := 3, raw_count := 18,
            slots := [some 0, some 1, some 2] } ∧
    (alloc_aligned_ params16 (some 7001) 3 params16.A
      = some ({ base := 7001, count := 18 }, 7008) ∧
    operator_new_array params16 (raw_length 3 params16.A) (some 7001)
      = some { base := 7001, count := 18 } ∧
    (18 : Nat) = 3 + params16.A - 1 ∧
    ((18 : Nat) = claimed_raw_count params16 3 ↔ params16.sizeofT = 1 ∨ params16.A = 1)) :=
  ⟨params16_valid, after_five_pushes_reachable, by decide, by decide,
    reserve_raw_count params16 params16_valid after_five_pushes
      after_five_pushes_reachable 3 (by decide) (some 7001)
      ⟨7008, 7001, 3, 3, 18, [some 0, some 1, some 2]⟩ (by decide)⟩

/-! ## When push_back reallocates (C14, C15) -/

theorem push_back_eq {T : Type} (p : Params) (resp : Option Nat) (s : aligned_vector T)
    (t : Argument T) :
    push_back p resp s t = (grow_if_full p resp s).bind
      (fun s1 => write_back s1 (read_argument s (decide (s.size_ ≥ s.capacity_)) t)) := rfl

theorem push_back_traced_fst {T : Type} (p : Params) (resp : Option Nat)
    (s : aligned_vector T) (t : Argument T) :
    (push_back_traced p resp s t).1 = push_back p resp s t := by
  rw [push_back_eq]
  unfold push_back_traced grow_if_full
  by_cases h : s.size_ ≥ s.capacity_
  · rw [if_pos h, if_pos h, decide_eq_true h]
  · rw [if_neg h, if_neg h, decide_eq_false h]

theorem push_back_traced_snd {T : Type} (p : Params) (resp : Option Nat)
    (s : aligned_vector T) (t : Argument T) :
    (push_back_traced p resp s t).2 =
      if s.capacity_ ≤ s.size_ then [growth_target s] else [] := by
  unfold push_back_traced growth_target
  split <;> rfl

/-- C14: push_back reallocates only when full. In every reachable state with
size < capacity, push_back(v) makes no call of reserve, returns, leaves the
capacity, the raw buffer and the aligned view unchanged, leaves every element
at an index below the old size unchanged, writes v at index old size (the
value of an outside object, or the value the element v[pos] holds when the
argument is that element) and increases the size by exactly one; with
size >= capacity it makes one call of reserve, with argument 1 if
capacity == 0 and 2 * capacity otherwise. -/
theorem push_back_grows_only_when_full {T : Type} (p : Params) (hp : p.Valid)
    (s : aligned_vector T) (hs : Reachable p s) (resp : Option Nat) (t : Argument T) :
    (push_back_traced p resp s t).1 = push_back p resp s t ∧
    (size s < capacity s →
      (push_back_traced p resp s t).2 = [] ∧
      ∃ s1, push_back p resp s t = .ok s1 ∧
        capacity s1 = capacity s ∧ s1.raw_data_ = s.raw_data_ ∧ data s1 = data s ∧
        s1.raw_count = s.raw_count ∧ size s1 = size s + 1 ∧
        at_ s1 (size s) = .ok (read_argument s false t) ∧
        (∀ v, t = Argument.object v → at_ s1 (size s) = .ok (some v)) ∧
        (∀ pos, t = Argument.element pos → pos < size s →
          at_ s1 (size s) = at_ s pos) ∧
        ∀ i, i < size s → ∃ v, at_ s i = .ok v ∧ at_ s1 i = .ok v ∧
          operator_subscript s i = .ok v ∧ operator_subscript s1 i = .ok v) ∧
    (capacity s ≤ size s →
      (push_back_traced p resp s t).2 = [if capacity s = 0 then 1 else 2 * capacity s]) := by
  have hi := reachable_inv p hp s hs
  have hlen : s.slots.length = s.capacity_ := hi.2.1
  refine ⟨push_back_traced_fst p resp s t, fun hlt => ?_, fun hfull => ?_⟩
  · have hlt0 : s.size_ < s.capacity_ := hlt
    refine ⟨by rw [push_back_traced_snd, if_neg (by omega)], ?_⟩
    rcases push_back_cases p hp resp s hi t with ⟨h1, _, _⟩ | ⟨_, h1⟩ | ⟨h1, _⟩
    · omega
    · have hat : at_ (pushed s (read_argument s false t)) s.size_
          = .ok (read_argument s false t) := by
        refine (read_ok (pushed s (read_argument s false t)) s.size_ _
          (by show s.size_ < s.size_ + 1; omega) ?_).1
        show (s.slots.set s.size_ (read_argument s false t))[s.size_]?
          = some (read_argument s false t)
        exact List.getElem?_set_self (by omega)
      refine ⟨pushed s (read_argument s false t), h1, rfl, rfl, rfl, rfl, rfl, hat,
        fun v hv => ?_, fun pos hpos hlt1 => ?_, fun i hlti => ?_⟩
      · show at_ (pushed s (read_argument s false t)) s.size_ = .ok (some v)
        rw [hat, hv]
        rfl
      · have hlt2 : pos < s.size_ := hlt1
        have hlt3 : pos < s.slots.length := by omega
        have hv : s.slots[pos]? = some (s.slots.get ⟨pos, hlt3⟩) :=
          List.getElem?_eq_getElem _
        show at_ (pushed s (read_argument s false t)) s.size_ = at_ s pos
        rw [hat, hpos, (read_ok s pos _ hlt2 hv).1]
        show Outcome.ok (read_argument s false (Argument.element pos)) = _
        unfold read_argument
        simp only [hv]
        rfl
      · have hlti0 : i < s.size_ := hlti
        exact read_same s _ i hlti0 (by omega) (by show i < s.size_ + 1; omega)
          (slots_pushed s _ i hlti0)
    · omega
  · have hfull0 : s.capacity_ ≤ s.size_ := hfull
    obtain ⟨hg, _, _⟩ := growth_target_eq p hp s hi
    rw [push_back_traced_snd, if_pos hfull0, hg]
    show [if s.capacity_ = 0 then 1 else s.capacity_ * 2]
      = [if s.capacity_ = 0 then 1 else 2 * s.capacity_]
    rw [Nat.mul_comm]

theorem push_back_grows_only_when_full_witness :
    params16.Valid ∧ Reachable params16 after_five_pushes ∧
    Reachable params16 after_two_pushes ∧
    size after_five_pushes < capacity after_five_pushes ∧
    capacity after_two_pushes ≤ size after_two_pushes ∧
    push_back_traced params16 none after_five_pushes (Argument.object 9) =
      (.ok { data_ := 4016, raw_data_ := 4001, size_ := 6, capacity_ := 8, raw_count := 23,
             slots := [some 0, some 1, some 2, some 3, some 4, some 9, none, none] }, []) ∧
    push_back_traced params16 none after_five_pushes (Argument.element 2) =
      (.ok { data_ := 4016, raw_data_ := 4001, size_ := 6, capacity_ := 8, raw_count := 23,
             slots := [some 0, some 1, some 2, some 3, some 4, some 2, none, none] }, []) ∧
    ((push_back_traced params16 none after_five_pushes (Argument.object 9)).2 = [] ∧
      ∃ s1, push_back params16 none after_five_pushes (Argument.object 9) = .ok s1 ∧
        capacity s1 = capacity after_five_pushes ∧
        s1.raw_data_ = after_five_pushes.raw_data_ ∧ data s1 = data after_five_pushes ∧
        s1.raw_count = after_five_pushes.raw_count ∧ size s1 = size after_five_pushes + 1 ∧
        at_ s1 (size after_five_pushes)
          = .ok (read_argument after_five_pushes false (Argument.object 9)) ∧
        (∀ v, Argument.object 9 = Argument.object v →
          at_ s1 (size after_five_pushes) = .ok (some v)) ∧
        (∀ pos, Argument.object 9 = Argument.element pos → pos < size after_five_pushes →
          at_ s1 (size after_five_pushes) = at_ after_five_pushes pos) ∧
        ∀ i, i < size after_five_pushes → ∃ v, at_ after_five_pushes i = .ok v ∧
          at_ s1 i = .ok v ∧ operator_subscript after_five_pushes i = .ok v ∧
          operator_subscript s1 i = .ok v) ∧
    (push_back_traced params16 (some 3004) after_two_pushes (Argument.object 2)).2 =
      [if capacity after_two_pushes = 0 then 1 else 2 * capacity after_two_pushes] :=
  ⟨params16_valid, after_five_pushes_reachable, after_two_pushes_reachable,
    by decide, by decide, by decide, by decide,
    (push_back_grows_only_when_full params16 params16_valid after_five_pushes
      after_five_pushes_reachable none (Argument.object 9)).2.1 (by decide),
    (push_back_grows_only_when_full params16 params16_valid after_two_pushes
      after_two_pushes_reachable (some 3004) (Argument.object 2)).2.2 (by decide)⟩

/-- C16: in-bounds access. In every state with size <= capacity, 2 * capacity
not overflowing size_t, and an aligned region of capacity slots, the slot
push_back writes to has an index strictly below the capacity in force at the
moment of the write (after the conditional reserve), so the write of
push_back never leaves the buffer, whatever content was read through the
argument; and for every pos < size the slot read by at(pos) and
operator[](pos) has an index below the capacity, the bounds assertion holds
and the read returns without taking the out-of-bounds branch. -/
theorem accesses_in_bounds {T : Type} (p : Params) (hp : p.Valid) (s : aligned_vector T)
    (hsz : size s ≤ capacity s) (hcap : 2 * capacity s < SIZE_MOD)
    (hreg : s.slots.length = capacity s) (resp : Option Nat) (t : Argument T) :
    push_back p resp s t = (grow_if_full p resp s).bind
      (fun s1 => write_back s1 (read_argument s (decide (s.size_ ≥ s.capacity_)) t)) ∧
    (∀ s1, grow_if_full p resp s = .ok s1 →
      size s1 < capacity s1 ∧ size s1 < s1.slots.length ∧
      ∀ v : Option T, ∃ s2, write_back s1 v = .ok s2 ∧ s2.slots[size s1]? = some v) ∧
    push_back p resp s t ≠ .undefined ∧
    (∀ pos, pos < size s → pos < capacity s ∧ pos < s.slots.length ∧
      ∃ v, at_ s pos = .ok v ∧ operator_subscript s pos = .ok v) := by
  have hsz0 : s.size_ ≤ s.capacity_ := hsz
  have hcap0 : 2 * s.capacity_ < SIZE_MOD := hcap
  have hreg0 : s.slots.length = s.capacity_ := hreg
  have hgrow : ∀ s1, grow_if_full p resp s = .ok s1 →
      s1.size_ < s1.capacity_ ∧ s1.size_ < s1.slots.length := by
    intro s1 h
    unfold grow_if_full at h
    by_cases hfull : s.size_ ≥ s.capacity_
    · rw [if_pos hfull] at h
      have hk : (if s.capacity_ = 0 then 1 else size_mul s.capacity_ 2)
          = (if s.capacity_ = 0 then 1 else s.capacity_ * 2) := by
        unfold size_mul
        unfold SIZE_MOD at hcap0 ⊢
        split
        · rfl
        · omega
      rw [hk] at h
      have hklt : (if s.capacity_ = 0 then 1 else s.capacity_ * 2) < SIZE_MOD := by
        unfold SIZE_MOD at hcap0 ⊢
        split <;> omega
      have hsk : s.size_ < (if s.capacity_ = 0 then 1 else s.capacity_ * 2) := by
        split <;> omega
      rcases reserve_cases p hp resp s (by omega) _ hklt with
        ⟨_, h1⟩ | ⟨_, h1⟩ | ⟨b, _, _, _, _, _, h1⟩
      · rw [h1] at h
        cases h
      · rw [h1] at h
        cases h
      · rw [h1] at h
        cases h
        unfold reserved
        simp only [List.length_append, List.length_take, List.length_replicate]
        omega
    · rw [if_neg hfull] at h
      cases h
      omega
  have hwrite : ∀ s1 : aligned_vector T, s1.size_ < s1.slots.length →
      ∀ v : Option T, ∃ s2, write_back s1 v = .ok s2 ∧ s2.slots[s1.size_]? = some v := by
    intro s1 h1 v
    unfold write_back
    rw [store_in_range s1 s1.size_ v h1]
    exact ⟨_, rfl, List.getElem?_set_self h1⟩
  refine ⟨rfl, fun s1 h => ⟨(hgrow s1 h).1, (hgrow s1 h).2, hwrite s1 (hgrow s1 h).2⟩, ?_, ?_⟩
  · rw [push_back_eq]
    cases hg : grow_if_full p resp s with
    | ok s1 =>
      obtain ⟨s2, h2, _⟩ := hwrite s1 (hgrow s1 hg).2
        (read_argument s (decide (s.size_ ≥ s.capacity_)) t)
      show write_back s1 (read_argument s (decide (s.size_ ≥ s.capacity_)) t) ≠ .undefined
      rw [h2]
      exact fun hne => by cases hne
    | bad_alloc s1 => exact fun hne => by cases hne
    | assert_fail => exact fun hne => by cases hne
    | undefined =>
      exfalso
      unfold grow_if_full at hg
      by_cases hfull : s.size_ ≥ s.capacity_
      · rw [if_pos hfull] at hg
        have hk : (if s.capacity_ = 0 then 1 else size_mul s.capacity_ 2)
            = (if s.capacity_ = 0 then 1 else s.capacity_ * 2) := by
          unfold size_mul
          unfold SIZE_MOD at hcap0 ⊢
          split
          · rfl
          · omega
        rw [hk] at hg
        have hklt : (if s.capacity_ = 0 then 1 else s.capacity_ * 2) < SIZE_MOD := by
          unfold SIZE_MOD at hcap0 ⊢
          split <;> omega
        rcases reserve_cases p hp resp s (by omega) _ hklt with
          ⟨_, h1⟩ | ⟨_, h1⟩ | ⟨b, _, _, _, _, _, h1⟩
        · rw [h1] at hg
          cases hg
        · rw [h1] at hg
          cases hg
        · rw [h1] at hg
          cases hg
      · rw [if_neg hfull] at hg
        cases hg
  · intro pos hpos
    have hpos0 : pos < s.size_ := hpos
    have hlt : pos < s.slots.length := by omega
    have hv : s.slots[pos]? = some (s.slots.get ⟨pos, hlt⟩) := List.getElem?_eq_getElem _
    exact ⟨by show pos < s.capacity_; omega, hlt, _, read_ok s pos _ hpos0 hv⟩

theorem accesses_in_bounds_witness :
    params16.Valid ∧ size after_two_pushes ≤ capacity after_two_pushes ∧
    2 * capacity after_two_pushes < SIZE_MOD ∧
    after_two_pushes.slots.length = capacity after_two_pushes ∧
    grow_if_full params16 (some 3004) after_two_pushes =
      .ok { data_ := 3008, raw_data_ := 3004, size_ := 2, capacity_ := 4, raw_count := 19,
            slots := [some 0, some 1, none, none] } ∧
    (push_back params16 (some 3004) after_two_pushes (Argument.object 2) =
      (grow_if_full params16 (some 3004) after_two_pushes).bind
        (fun s1 => write_back s1 (read_argument after_two_pushes
          (decide (after_two_pushes.size_ ≥ after_two_pushes.capacity_))
          (Argument.object 2))) ∧
    (∀ s1, grow_if_full params16 (some 3004) after_two_pushes = .ok s1 →
      size s1 < capacity s1 ∧ size s1 < s1.slots.length ∧
      ∀ v : Option Nat, ∃ s2, write_back s1 v = .ok s2 ∧ s2.slots[size s1]? = some v) ∧
    push_back params16 (some 3004) after_two_pushes (Argument.object 2) ≠ .undefined ∧
    (∀ pos, pos < size after_two_pushes → pos < capacity after_two_pushes ∧
      pos < after_two_pushes.slots.length ∧
      ∃ v, at_ after_two_pushes pos = .ok v ∧
        operator_subscript after_two_pushes pos = .ok v)) :=
  ⟨params16_valid, by decide, by decide, by decide, by decide,
    accesses_in_bounds params16 params16_valid after_two_pushes (by decide) (by decide)
      (by decide) (some 3004) (Argument.object 2)⟩

/-! ## The two pointers (C17) -/

/-- C17: pointer-consistency invariant. In every reachable state raw_data_ is
null if and only if data_ is null, and a null raw_data_ implies size == 0 and
capacity == 0, the state being that of a new container, so the guard in
free_data_ never skips a reset that was needed; whenever reserve, resize or
push_back returns, both pointers are non-null. -/
theorem pointers_consistent {T : Type} (p : Params) (hp : p.Valid) (s : aligned_vector T)
    (hs : Reachable p s) :
    (s.raw_data_ = 0 ↔ data s = 0) ∧
    (s.raw_data_ = 0 → size s = 0 ∧ capacity s = 0 ∧ s = aligned_vector.init T ∧
      free_data_ s = aligned_vector.init T) ∧
    (∀ (resp : Option Nat) (k : Nat) (s1 : aligned_vector T), k < SIZE_MOD →
      reserve p resp s k = .ok s1 ∨ resize p resp s k = .ok s1 →
      s1.raw_data_ ≠ 0 ∧ data s1 ≠ 0) ∧
    (∀ (resp : Option Nat) (t : Argument T) (s1 : aligned_vector T),
      push_back p resp s t = .ok s1 ∨ push_back_const p resp s t = .ok s1 ∨
        emplace_back p resp s t = .ok s1 →
      s1.raw_data_ ≠ 0 ∧ data s1 ≠ 0) := by
  have hi := reachable_inv p hp s hs
  obtain ⟨hsz, hlen, _, h0, h1⟩ := id hi
  have hlen1 : s.size_ ≤ s.slots.length := by omega
  obtain ⟨_, hA⟩ := valid_pos p hp
  have hclr := clear_of_inv p s hi
  have hnull : s.raw_data_ = 0 → s = aligned_vector.init T := by
    intro hr
    rw [← hclr]
    unfold clear free_data_
    rw [if_neg (by simpa using hr)]
  have hres : ∀ (b k : Nat), 0 < b →
      (reserved p b s k).raw_data_ ≠ 0 ∧ (reserved p b s k).data_ ≠ 0 := by
    intro b k hb
    obtain ⟨h3, _, _, _⟩ := round_up_props b p.A hA
    exact ⟨by show b ≠ 0; omega, by show (b + p.A - 1) / p.A * p.A ≠ 0; omega⟩
  refine ⟨⟨fun hr => (h0 hr).1, fun hd => ?_⟩, fun hr => ?_, ?_, ?_⟩
  · by_contra hr
    exact (h1 hr).1 hd
  · have hc := (h0 hr).2.1
    refine ⟨by show s.size_ = 0; omega, hc, hnull hr, ?_⟩
    show clear s = aligned_vector.init T
    exact hclr
  · intro resp k s1 hk h
    have key : reserve p resp s k = .ok s1 ∨
        (reserve p resp s k).bind (fun s2 => .ok { s2 with size_ := k }) = .ok s1 := h
    rcases reserve_cases p hp resp s hlen1 k hk with
      ⟨_, hr⟩ | ⟨_, hr⟩ | ⟨b, _, hb0, _, _, _, hr⟩
    · rw [hr] at key
      rcases key with h2 | h2 <;> cases h2
    · rw [hr] at key
      rcases key with h2 | h2 <;> cases h2
    · rw [hr] at key
      rcases key with h2 | h2
      · cases h2
        exact hres b k hb0
      · cases h2
        exact hres b k hb0
  · intro resp t s1 h
    have key : push_back p resp s t = .ok s1 := by
      rcases h with h | h | h <;> exact h
    rcases push_back_cases p hp resp s hi t with
      ⟨_, _, h2⟩ | ⟨hlt, h2⟩ | ⟨_, b, _, hb0, _, _, h2⟩
    · rw [h2] at key
      cases key
    · rw [h2] at key
      cases key
      have hr : s.raw_data_ ≠ 0 := fun hr => by
        have := (h0 hr).2.1
        omega
      exact ⟨hr, (h1 hr).1⟩
    · rw [h2] at key
      cases key
      exact hres b (growth_target s) hb0

theorem pointers_consistent_witness :
    params16.Valid ∧ Reachable params16 after_two_pushes ∧
    push_back params16 (some 3004) after_two_pushes (Argument.object 2) =
      .ok { data_ := 3008, raw_data_ := 3004, size_ := 3, capacity_ := 4, raw_count := 19,
            slots := [some 0, some 1, some 2, none] } ∧
    ((after_two_pushes.raw_data_ = 0 ↔ data after_two_pushes = 0) ∧
    (after_two_pushes.raw_data_ = 0 → size after_two_pushes = 0 ∧
      capacity after_two_pushes = 0 ∧ after_two_pushes = aligned_vector.init Nat ∧
      free_data_ after_two_pushes = aligned_vector.init Nat) ∧
    (∀ (resp : Option Nat) (k : Nat) (s1 : aligned_vector Nat), k < SIZE_MOD →
      reserve params16 resp after_two_pushes k = .ok s1 ∨
        resize params16 resp after_two_pushes k = .ok s1 →
      s1.raw_data_ ≠ 0 ∧ data s1 ≠ 0) ∧
    (∀ (resp : Option Nat) (t : Argument Nat) (s1 : aligned_vector Nat),
      push_back params16 resp after_two_pushes t = .ok s1 ∨
        push_back_const params16 resp after_two_pushes t = .ok s1 ∨
        emplace_back params16 resp after_two_pushes t = .ok s1 →
      s1.raw_data_ ≠ 0 ∧ data s1 ≠ 0)) :=
  ⟨params16_valid, after_two_pushes_reachable, by decide,
    pointers_consistent params16 params16_valid after_two_pushes
      after_two_pushes_reachable⟩

end is
